import Mathlib

set_option maxHeartbeats 1000000

/-!
Shallow embedding of the order-ingestion pipeline of the Woocomerce-Subidha
backend (`services/importService.js`, the reconciliation script
`data_reconciliation.js`, and the data model in `models/`), together with
proofs checking the specification's claims against it.
-/

/-- A spreadsheet / JS cell value as the import service sees it: absent
(`undefined`), a string, or a number.  Numeric cells are modelled as
integer-valued; fractional parts play no role in any control-flow decision
of the pipeline. -/
inductive JVal where
  | undef : JVal
  | str : String → JVal
  | num : Int → JVal
deriving DecidableEq, Repr

/-- JS truthiness of a cell value: `undefined`, the empty string and `0` are
falsy, everything else is truthy. -/
def JVal.truthy : JVal → Bool
  | .undef => false
  | .str s => s != ""
  | .num n => n != 0

/-- JS `a || b`. -/
def jOr (a b : JVal) : JVal := if a.truthy then a else b

/-- One raw spreadsheet row after header mapping (the `rowData` object built
in `parseFileAndGroupOrders`); field names follow `COLUMN_MAP` in
`importService.js`.  Phone and e-mail cells are modelled as text cells
(`none` = absent cell). -/
structure Row where
  bill_number : JVal := .undef
  order_number : JVal := .undef
  order_date : JVal := .undef
  customer_user_id : JVal := .undef
  customer_username : JVal := .undef
  party_name : JVal := .undef
  company_billing : JVal := .undef
  gst_number : JVal := .undef
  state_name : JVal := .undef
  address : JVal := .undef
  pincode : JVal := .undef
  country : JVal := .undef
  email : Option String := none
  phone : Option String := none
  item_hash : JVal := .undef
  product_id : JVal := .undef
  item_name : JVal := .undef
  hsn_code : JVal := .undef
  gst_rate : JVal := .undef
  quantity : JVal := .undef
  item_cost : JVal := .undef
  order_line_tax : JVal := .undef
  cart_discount_amount : JVal := .undef
  order_subtotal_amount : JVal := .undef
  order_total_tax_amount : JVal := .undef
  order_total_amount : JVal := .undef
  payment_method : JVal := .undef
  transaction_id : JVal := .undef
deriving DecidableEq, Repr

/-- One staged line item of an order aggregate (the object pushed onto
`ordersMap.get(billNumber).items`). -/
structure Item where
  product_id : JVal
  item_hash : JVal
  item_name : JVal
  hsn_code : JVal
  gst_rate : JVal
  quantity : JVal
  unit_cost_at_sale : JVal
  order_line_tax : JVal
deriving DecidableEq, Repr

/-- The line item built from one surviving row (`items.push({...})` in
`parseFileAndGroupOrders`): the product id falls back to the `Item #`
column. -/
def mkItem (rowData : Row) : Item :=
  { product_id := jOr rowData.product_id rowData.item_hash
    item_hash := rowData.item_hash
    item_name := rowData.item_name
    hsn_code := rowData.hsn_code
    gst_rate := rowData.gst_rate
    quantity := rowData.quantity
    unit_cost_at_sale := rowData.item_cost
    order_line_tax := rowData.order_line_tax }

/-- The row-level guard of `parseFileAndGroupOrders`: a row is kept exactly
when `!billNumber || !rowData.order_total_amount` is false. -/
def keepRow (rowData : Row) : Bool :=
  rowData.bill_number.truthy && rowData.order_total_amount.truthy

/-- One order aggregate: the spread of the first surviving row with its bill
number plus the accumulated line items. -/
structure OrderAgg where
  data : Row
  items : List Item
deriving DecidableEq, Repr

/-- The grouping key of an aggregate. -/
def billOf (a : OrderAgg) : JVal := a.data.bill_number

/-- Whether the accumulator (the `ordersMap`) already has an aggregate for a
bill number. -/
def hasBill (acc : List OrderAgg) (b : JVal) : Bool :=
  acc.any fun a => decide (billOf a = b)

/-- Append one item to the aggregate keyed by `b`
(`ordersMap.get(billNumber).items.push(...)`). -/
def pushItem (acc : List OrderAgg) (b : JVal) (it : Item) : List OrderAgg :=
  acc.map fun a => if billOf a = b then { a with items := a.items ++ [it] } else a

/-- The body of the `eachRow` callback of `parseFileAndGroupOrders` for one
data row: skip malformed rows, insert a fresh aggregate on first sight of a
bill number, then push the row's line item. -/
def addRow (acc : List OrderAgg) (rowData : Row) : List OrderAgg :=
  if ¬ keepRow rowData then acc
  else
    let acc1 := if hasBill acc rowData.bill_number then acc
                else acc ++ [{ data := rowData, items := [] }]
    pushItem acc1 rowData.bill_number (mkItem rowData)

/-- `parseFileAndGroupOrders`, starting from the already header-mapped rows
(the spreadsheet parsing library is an external collaborator); returns
`Array.from(ordersMap.values())`, i.e. aggregates in insertion order. -/
def parseFileAndGroupOrders (rows : List Row) : List OrderAgg :=
  rows.foldl addRow []

/-- JS `s.startsWith(p)`, modelled structurally over the character list. -/
def jsStartsWith (s p : String) : Bool := p.toList.isPrefixOf s.toList

/-- JS `s.substring(n)`, modelled structurally over the character list. -/
def jsDropChars (s : String) (n : Nat) : String := String.mk (s.toList.drop n)

/-- JS `s.trim()`: remove leading and trailing whitespace, modelled
structurally over the character list. -/
def jsTrim (s : String) : String :=
  String.mk (((s.toList.dropWhile Char.isWhitespace).reverse.dropWhile
    Char.isWhitespace).reverse)

/-- `normalizePhone` from `importService.js`: strip every non-digit
character; when the result starts with `"91"` and has more than 10 digits,
drop that two-character head. -/
def normalizePhone (phoneNumber : Option String) : String :=
  match phoneNumber with
  | none => ""
  | some s =>
    if s = "" then ""
    else
      let cleaned := String.mk (s.toList.filter Char.isDigit)
      if jsStartsWith cleaned "91" ∧ cleaned.length > 10 then jsDropChars cleaned 2
      else cleaned

/-- Phone normalization as the specification words it, for comparison:
remove every non-digit character; exactly when the resulting digit string
has strictly more than 10 digits and starts with `"91"`, drop that
two-digit head. -/
def normalizePhoneSpec (phoneNumber : Option String) : String :=
  let digits := String.mk ((phoneNumber.getD "").toList.filter Char.isDigit)
  if digits.length > 10 ∧ jsStartsWith digits "91" then jsDropChars digits 2 else digits

/-- First occurrences of each element of a list, in encounter order (the key
order of a JS `Map`/`Set` filled by insertion). -/
def firstKeys {α : Type} [DecidableEq α] (bs : List α) : List α :=
  bs.foldl (fun acc b => if b ∈ acc then acc else acc ++ [b]) []

/-- `(orderData.email || '').toString().trim()` in `findOrCreateCustomer`. -/
def emailOf (r : Row) : String := jsTrim (r.email.getD "")

/-- The digits at the head of a character list. -/
def leadingDigits : List Char → List Char
  | [] => []
  | c :: cs => if c.isDigit then c :: leadingDigits cs else []

/-- Numeric value of a digit list. -/
def digitsVal (ds : List Char) : Nat :=
  ds.foldl (fun acc c => acc * 10 + (c.toNat - '0'.toNat)) 0

/-- The leading signed-integer value of a string, `none` when the string has
no leading number (JS `NaN`). -/
def leadingIntVal (s : String) : Option Int :=
  match (jsTrim s).toList with
  | '-' :: r =>
    if (leadingDigits r).isEmpty then none else some (-(digitsVal (leadingDigits r) : Int))
  | '+' :: r =>
    if (leadingDigits r).isEmpty then none else some ((digitsVal (leadingDigits r) : Int))
  | r =>
    if (leadingDigits r).isEmpty then none else some ((digitsVal (leadingDigits r) : Int))

/-- JS `parseFloat(v) || 0` / `parseInt(v) || 0` on an integer-valued cell
model: a fractional part is out of scope of this model, and a string that
does not start with a number coerces to 0 (`NaN || 0`). -/
def parseNumOr0 : JVal → Int
  | .undef => 0
  | .num n => n
  | .str s => (leadingIntVal s).getD 0

/-- A persisted customer profile (`models/Customer.js`): primary unique
e-mail plus the JSON contact lists `all_phones` / `all_emails`, which are
modelled directly as string lists (the `JSON.stringify` / `JSON.parse`
round-trip of the service is a representation detail). -/
structure Customer where
  id : Nat := 0
  customer_user_id : JVal := .undef
  customer_username : JVal := .undef
  email : String := ""
  party_name : JVal := .undef
  company_billing : JVal := .undef
  gst_number : JVal := .undef
  address : JVal := .undef
  pincode : JVal := .undef
  country : JVal := .undef
  state_name : JVal := .undef
  all_phones : List String := []
  all_emails : List String := []
deriving DecidableEq, Repr

/-- A persisted product-master row (`models/Product.js`). -/
structure ProductRow where
  id : Nat := 0
  product_id : JVal := .undef
  item_name : JVal := .undef
  hsn_code : JVal := .undef
deriving DecidableEq, Repr

/-- A persisted order row (`models/Order.js`); the date is kept as the raw
cell value (`new Date` wrapping is out of scope of this model). -/
structure OrderRow where
  id : Nat := 0
  bill_number : JVal := .undef
  order_number : JVal := .undef
  order_date : JVal := .undef
  cart_discount_amount : Int := 0
  order_subtotal_amount : Int := 0
  order_total_tax_amount : Int := 0
  order_total_amount : Int := 0
  payment_method : JVal := .undef
  transaction_id : JVal := .undef
  customerId : Nat := 0
deriving DecidableEq, Repr

/-- A persisted order-item row (`models/OrderItem.js`). -/
structure OrderItemRow where
  item_hash : JVal := .undef
  quantity : Int := 0
  unit_cost_at_sale : Int := 0
  gst_rate : Int := 0
  order_line_tax : Int := 0
  orderId : Nat := 0
  productId : Nat := 0
deriving DecidableEq, Repr

/-- The persistent store the pipeline writes to (tables plus auto-increment
counters); a transaction is modelled by working on a copy of this state and
discarding it on rollback. -/
structure DB where
  customers : List Customer := []
  nextCustomerId : Nat := 1
  orders : List OrderRow := []
  nextOrderId : Nat := 1
  products : List ProductRow := []
  nextProductId : Nat := 1
  orderItems : List OrderItemRow := []
deriving DecidableEq, Repr

/-- The merge branch of `findOrCreateCustomer` (customer found): append the
normalized phone / trimmed e-mail to the contact lists when non-empty and
absent, and overwrite the descriptive fields with the order's values when
those are truthy (the primary `email` and `country` columns are not part of
`customerUpdateFields`). -/
def mergeCustomer (orderData : Row) (phone email : String) (customer : Customer) : Customer :=
  let phones := customer.all_phones
  let emails := customer.all_emails
  let phones' := if phone ≠ "" ∧ phone ∉ phones then phones ++ [phone] else phones
  let emails' := if email ≠ "" ∧ email ∉ emails then emails ++ [email] else emails
  { customer with
      all_phones := phones'
      all_emails := emails'
      party_name := jOr orderData.party_name customer.party_name
      company_billing := jOr orderData.company_billing customer.company_billing
      gst_number := jOr orderData.gst_number customer.gst_number
      address := jOr orderData.address customer.address
      pincode := jOr orderData.pincode customer.pincode
      state_name := jOr orderData.state_name customer.state_name
      customer_user_id := jOr orderData.customer_user_id customer.customer_user_id
      customer_username := jOr orderData.customer_username customer.customer_username }

/-- `findOrCreateCustomer`: primary lookup by normalized phone in the
`all_phones` list (`JSON_CONTAINS`), secondary lookup by exact primary
e-mail only when the phone lookup returned nothing; a found profile is
merged in place, otherwise creation requires a non-empty e-mail. -/
def findOrCreateCustomer (orderData : Row) (db : DB) : Except String (Customer × DB) :=
  let phone := normalizePhone orderData.phone
  let email := emailOf orderData
  let byPhone : Option Customer :=
    if phone ≠ "" then db.customers.find? (fun c => decide (phone ∈ c.all_phones)) else none
  let found : Option Customer :=
    match byPhone with
    | some c => some c
    | none => if email ≠ "" then db.customers.find? (fun c => decide (c.email = email)) else none
  match found with
  | some customer =>
    let customer' := mergeCustomer orderData phone email customer
    .ok (customer',
      { db with customers := db.customers.map fun x => if x.id = customer.id then customer' else x })
  | none =>
    if email = "" then .error "MissingIdentityKey"
    else
      let newCustomer : Customer :=
        { id := db.nextCustomerId
          customer_user_id := orderData.customer_user_id
          customer_username := orderData.customer_username
          email := email
          party_name := jOr orderData.party_name (.str "N/A")
          company_billing := jOr orderData.company_billing (.str "N/A")
          gst_number := orderData.gst_number
          address := jOr orderData.address (.str "N/A")
          pincode := jOr orderData.pincode (.str "N/A")
          country := jOr orderData.country (.str "N/A")
          state_name := jOr orderData.state_name (.str "N/A")
          all_phones := if phone ≠ "" then [phone] else []
          all_emails := if email ≠ "" then [email] else [] }
      .ok (newCustomer,
        { db with customers := db.customers ++ [newCustomer]
                  nextCustomerId := db.nextCustomerId + 1 })

/-- `findOrCreateProduct`: look the master product up by its external
identifier, creating it when absent; fails when the identifier (already
including the `Item #` fallback from grouping) is falsy. -/
def findOrCreateProduct (itemData : Item) (db : DB) : Except String (ProductRow × DB) :=
  let masterProductId := itemData.product_id
  if ¬ masterProductId.truthy then .error "MissingProductKey"
  else
    match db.products.find? (fun p => decide (p.product_id = masterProductId)) with
    | some product => .ok (product, db)
    | none =>
      let product : ProductRow :=
        { id := db.nextProductId
          product_id := masterProductId
          item_name := jOr itemData.item_name (.str "Unknown Product")
          hsn_code := itemData.hsn_code }
      .ok (product, { db with products := db.products ++ [product]
                              nextProductId := db.nextProductId + 1 })

/-- The `OrderItem` row staged for one line item (`itemsToInsert.push({...})`
in `processOrderFile`). -/
def mkOrderItemRow (orderId : Nat) (itemData : Item) (productId : Nat) : OrderItemRow :=
  { item_hash := jOr itemData.item_hash (jOr itemData.product_id (.str "N/A"))
    quantity := parseNumOr0 itemData.quantity
    unit_cost_at_sale := parseNumOr0 itemData.unit_cost_at_sale
    gst_rate := parseNumOr0 itemData.gst_rate
    order_line_tax := parseNumOr0 itemData.order_line_tax
    orderId := orderId
    productId := productId }

/-- The item loop of `processOrderFile` step 3: resolve every line item's
product master and stage its `OrderItem` row. -/
def stageItems (orderId : Nat) (db : DB) : List Item → Except String (List OrderItemRow × DB)
  | [] => .ok ([], db)
  | itemData :: rest =>
    match findOrCreateProduct itemData db with
    | .error e => .error e
    | .ok (product, db') =>
      match stageItems orderId db' rest with
      | .error e => .error e
      | .ok (staged, db'') =>
        .ok (mkOrderItemRow orderId itemData product.id :: staged, db'')

/-- Per-aggregate classification. -/
inductive Outcome where
  | success : Outcome
  | skipped : Outcome
  | failed : Outcome
deriving DecidableEq, Repr

/-- The `orderToInsert` record built in `processOrderFile` step 2, with the
numeric columns coerced (`parseFloat(...) || 0`). -/
def mkOrderRow (orderData : OrderAgg) (customer : Customer) (oid : Nat) : OrderRow :=
  { id := oid
    bill_number := orderData.data.bill_number
    order_number := orderData.data.order_number
    order_date := orderData.data.order_date
    cart_discount_amount := parseNumOr0 orderData.data.cart_discount_amount
    order_subtotal_amount := parseNumOr0 orderData.data.order_subtotal_amount
    order_total_tax_amount := parseNumOr0 orderData.data.order_total_tax_amount
    order_total_amount := parseNumOr0 orderData.data.order_total_amount
    payment_method := orderData.data.payment_method
    transaction_id := orderData.data.transaction_id
    customerId := customer.id }

/-- One transactional iteration of the `for (const orderData of
groupedOrders)` loop of `processOrderFile`: the whole body runs inside one
transaction, so both the duplicate check and any thrown error roll the
state back to the incoming `db`. -/
def processOrder (db : DB) (orderData : OrderAgg) : Outcome × DB :=
  match findOrCreateCustomer orderData.data db with
  | .error _ => (.failed, db)
  | .ok (customer, db1) =>
    if (db1.orders.find? fun o => decide (o.bill_number = orderData.data.bill_number)).isSome then
      (.skipped, db)
    else
      let newOrder : OrderRow := mkOrderRow orderData customer db1.nextOrderId
      let db2 := { db1 with orders := db1.orders ++ [newOrder]
                            nextOrderId := db1.nextOrderId + 1 }
      match stageItems newOrder.id db2 orderData.items with
      | .error _ => (.failed, db)
      | .ok (itemsToInsert, db3) =>
        (.success, { db3 with orderItems := db3.orderItems ++ itemsToInsert })

/-- The per-job counters (`jobStatus[jobId].summary`). -/
structure Summary where
  totalProcessed : Nat := 0
  successfulInserts : Nat := 0
  failedInserts : Nat := 0
  skippedDuplicates : Nat := 0
deriving DecidableEq, Repr

/-- Process one aggregate and bump exactly one outcome counter. -/
def runStep (st : DB × Summary) (orderData : OrderAgg) : DB × Summary :=
  match processOrder st.1 orderData with
  | (.success, db') => (db', { st.2 with successfulInserts := st.2.successfulInserts + 1 })
  | (.skipped, db') => (db', { st.2 with skippedDuplicates := st.2.skippedDuplicates + 1 })
  | (.failed, db') => (db', { st.2 with failedInserts := st.2.failedInserts + 1 })

/-- The sequential order loop of `processOrderFile`. -/
def runLoop (db : DB) (s : Summary) (orders : List OrderAgg) : DB × Summary :=
  orders.foldl runStep (db, s)

/-- `processOrderFile`: group the rows, set the job's total, then process
every aggregate in sequence.  The uploaded-file deletion and the shared
job-status object are collaborator-side effects outside this model; the
returned summary is the final `jobStatus[jobId].summary`. -/
def processOrderFile (db : DB) (rows : List Row) : DB × Summary :=
  let groupedOrders := parseFileAndGroupOrders rows
  runLoop db { totalProcessed := groupedOrders.length } groupedOrders

/-- The persisted bill numbers, in insertion order. -/
def orderBills (db : DB) : List JVal := db.orders.map (·.bill_number)

/-- Customer resolution succeeds exactly when an e-mail is available for
profile creation or some stored profile contains the normalized phone. -/
def resOk (db : DB) (r : Row) : Prop :=
  emailOf r ≠ "" ∨
    (normalizePhone r.phone ≠ "" ∧ ∃ c ∈ db.customers, normalizePhone r.phone ∈ c.all_phones)

/-- All line items of an aggregate carry a truthy product identifier, so
product resolution cannot throw. -/
def itemsOk (items : List Item) : Prop := ∀ it ∈ items, it.product_id.truthy = true

/-- Store growth on the customer table: every stored profile survives with
the same primary e-mail and contact lists that only grow. -/
def custLe (db db' : DB) : Prop :=
  ∀ c ∈ db.customers, ∃ c' ∈ db'.customers,
    c'.email = c.email ∧ (∀ p ∈ c.all_phones, p ∈ c'.all_phones) ∧
    (∀ e ∈ c.all_emails, e ∈ c'.all_emails)

/-- The store state after a run over a list of aggregates. -/
def dbAfter (db : DB) : List OrderAgg → DB
  | [] => db
  | o :: l => dbAfter (processOrder db o).2 l

/-- The per-aggregate outcome sequence of a run. -/
def runOutcomes (db : DB) : List OrderAgg → List Outcome
  | [] => []
  | o :: l => (processOrder db o).1 :: runOutcomes (processOrder db o).2 l

/-- The bill numbers of the aggregates a run inserts, in order. -/
def successBills (db : DB) : List OrderAgg → List JVal
  | [] => []
  | o :: l =>
    (if (processOrder db o).1 = .success then [billOf o] else []) ++
      successBills (processOrder db o).2 l

/-- `record['Invoice Number'] ? record['Invoice Number'].toString().trim() :
null` in `performDeltaAnalysis` (`none` = column absent). -/
def deltaBill (rec : Option String) : Option String :=
  match rec with
  | some s => if s ≠ "" then some (jsTrim s) else none
  | none => none

/-- The running state of the delta analysis: seen source bills (a JS `Set`
in insertion order), the remaining persisted bills, and the counters. -/
structure DeltaState where
  csvBillNumbers : List String := []
  dbBills : List String := []
  matched : Nat := 0
  missingInDb : List String := []
deriving DecidableEq, Repr

/-- The body of the record loop of `performDeltaAnalysis` for one source
record. -/
def deltaStep (st : DeltaState) (rec : Option String) : DeltaState :=
  match deltaBill rec with
  | none => st
  | some b =>
    if b = "" then st
    else if b ∈ st.csvBillNumbers then st
    else
      let seen := st.csvBillNumbers ++ [b]
      if b ∈ st.dbBills then
        { st with csvBillNumbers := seen
                  matched := st.matched + 1
                  dbBills := st.dbBills.erase b }
      else
        { st with csvBillNumbers := seen
                  missingInDb := st.missingInDb ++ [b] }

/-- `performDeltaAnalysis` from `data_reconciliation.js`, starting from the
raw persisted bill numbers (`getImportedBillNumbersFromDB` trims them into a
`Set`) and the parsed source records; returns `(matched, missingInDb,
extraInDb)`.  The file reading and console reporting are out of scope. -/
def performDeltaAnalysis (dbBillNumbersRaw : List String)
    (records : List (Option String)) : Nat × List String × List String :=
  let importedDbBills := firstKeys (dbBillNumbersRaw.map jsTrim)
  let final := records.foldl deltaStep { dbBills := importedDbBills }
  (final.matched, final.missingInDb, final.dbBills)

/-- The bill a source record contributes to the classification: its trimmed
value when the raw and trimmed values are both non-empty. -/
def srcBill (rec : Option String) : Option String :=
  match deltaBill rec with
  | some b => if b ≠ "" then some b else none
  | none => none

/-- The distinct classified source bills of the delta analysis, in encounter
order, as the specification describes them. -/
def srcKeys (records : List (Option String)) : List String :=
  firstKeys (records.filterMap srcBill)

/-- The rows that survive the malformed-row guard. -/
def survRows (rows : List Row) : List Row := rows.filter keepRow

/-- The surviving rows carrying one bill number, in encounter order. -/
def rowsFor (rows : List Row) (b : JVal) : List Row :=
  (survRows rows).filter fun r => decide (r.bill_number = b)

/-- Well-formedness of the customer table: ids are below the auto-increment
counter and pairwise distinct (the storage engine's primary-key guarantee). -/
def custIdsOk (db : DB) : Prop :=
  (∀ c ∈ db.customers, c.id < db.nextCustomerId) ∧ (db.customers.map (·.id)).Nodup

/-- Occurrences of one outcome in an outcome sequence. -/
def countOf (out : Outcome) (os : List Outcome) : Nat :=
  os.countP fun x => decide (x = out)

instance (db : DB) (r : Row) : Decidable (resOk db r) := by
  unfold resOk
  infer_instance

instance (items : List Item) : Decidable (itemsOk items) := by
  unfold itemsOk
  infer_instance

instance (db : DB) : Decidable (custIdsOk db) := by
  unfold custIdsOk
  infer_instance

/-- An empty store. -/
def dbEmpty : DB := {}

/-- A row whose order can only be keyed by phone: bill `B2`, phone `111`, no
e-mail. -/
def rowOrphan : Row :=
  { bill_number := .str "B2", order_total_amount := .num 10, phone := some "111"
    product_id := .str "P2", quantity := .num 1 }

/-- A row carrying both the shared phone `111` and an e-mail: bill `B1`. -/
def rowKeyed : Row :=
  { bill_number := .str "B1", order_total_amount := .num 10, phone := some "111"
    email := some "e@x", product_id := .str "P1", quantity := .num 1 }

/-- An input whose ingestion is not idempotent: `rowOrphan` fails on the
first run (no identity key) but succeeds on the second, after `rowKeyed`'s
merge made phone `111` resolvable. -/
def rowsTwice : List Row := [rowOrphan, rowKeyed]

/-- A resolved customer profile holding phone `111`. -/
def custResolved : Customer :=
  { id := 1, email := "e@x", all_phones := ["111"], all_emails := ["e@x"] }

/-- A persisted order with bill number `B9`. -/
def orderB9 : OrderRow := { id := 1, bill_number := .str "B9", customerId := 1 }

/-- A store already holding bill `B9` and `custResolved`. -/
def dbWithB9 : DB :=
  { customers := [custResolved], nextCustomerId := 2, orders := [orderB9], nextOrderId := 2 }

/-- A duplicate aggregate for bill `B9` whose customer resolution succeeds. -/
def aggB9 : OrderAgg :=
  { data := { bill_number := .str "B9", order_total_amount := .num 5, email := some "e@x" }
    items := [] }

/-- A duplicate aggregate for bill `B9` without any identity key, so its
customer resolution throws before the duplicate check. -/
def aggB9NoIdentity : OrderAgg :=
  { data := { bill_number := .str "B9", order_total_amount := .num 5 }, items := [] }

/-- An aggregate without phone or e-mail: customer resolution throws. -/
def aggNoIdentity : OrderAgg :=
  { data := { bill_number := .str "B7", order_total_amount := .num 5 }, items := [] }

/-- A profile matched by phone `555`. -/
def custByPhone : Customer :=
  { id := 1, email := "a@x", all_phones := ["555"], all_emails := ["a@x"] }

/-- A different profile matched by primary e-mail `b@y`. -/
def custByMail : Customer :=
  { id := 2, email := "b@y", all_phones := [], all_emails := ["b@y"] }

/-- A store holding both profiles. -/
def dbTwoCustomers : DB := { customers := [custByPhone, custByMail], nextCustomerId := 3 }

/-- An order whose phone matches `custByPhone` while its e-mail matches
`custByMail`. -/
def rowBothContacts : Row :=
  { bill_number := .str "B3", order_total_amount := .num 5, phone := some "555"
    email := some "b@y" }

/-- The phone-matched profile after merging `rowBothContacts`. -/
def mergedPhonePriority : Customer :=
  mergeCustomer rowBothContacts (normalizePhone rowBothContacts.phone)
    (emailOf rowBothContacts) custByPhone

/-- The customer table after resolving `rowBothContacts` against
`dbTwoCustomers`. -/
def dbTwoCustomersMerged : List Customer :=
  dbTwoCustomers.customers.map fun x =>
    if x.id = custByPhone.id then mergedPhonePriority else x

/-- A row for bill `B` that the grouper drops (total amount absent). -/
def rowBDropped : Row := { bill_number := .str "B" }

/-- A surviving row for bill `A`. -/
def rowA : Row :=
  { bill_number := .str "A", order_total_amount := .num 10, product_id := .str "PA" }

/-- A surviving row for bill `B`. -/
def rowB : Row :=
  { bill_number := .str "B", order_total_amount := .num 10, product_id := .str "PB" }

/-- Bill `B` appears first in the input, but its first row is dropped, so
the grouper emits `A` before `B`. -/
def rowsOrd : List Row := [rowBDropped, rowA, rowB]

/-- A row whose total-amount cell is present but numerically zero. -/
def rowZeroTotal : Row := { bill_number := .str "Z", order_total_amount := .num 0 }

/-! ## Grouping: helper lemmas -/

theorem firstKeys_concat {α : Type} [DecidableEq α] (bs : List α) (b : α) :
    firstKeys (bs ++ [b]) =
      if b ∈ firstKeys bs then firstKeys bs else firstKeys bs ++ [b] := by
  simp [firstKeys, List.foldl_append]

theorem mem_firstKeys {α : Type} [DecidableEq α] (bs : List α) :
    ∀ x, x ∈ firstKeys bs ↔ x ∈ bs := by
  induction bs using List.reverseRecOn with
  | nil => intro x; simp [firstKeys]
  | append_singleton l b ih =>
    intro x
    rw [firstKeys_concat]
    by_cases hb : b ∈ firstKeys l
    · rw [if_pos hb, ih]
      simp only [List.mem_append, List.mem_singleton]
      exact ⟨Or.inl, fun h => h.elim id fun hx => hx ▸ (ih b).mp hb⟩
    · rw [if_neg hb]
      simp only [List.mem_append, List.mem_singleton, ih]

theorem firstKeys_nodup {α : Type} [DecidableEq α] (bs : List α) : (firstKeys bs).Nodup := by
  induction bs using List.reverseRecOn with
  | nil => simp [firstKeys]
  | append_singleton l b ih =>
    rw [firstKeys_concat]
    by_cases hb : b ∈ firstKeys l
    · rwa [if_pos hb]
    · rw [if_neg hb]
      refine List.Nodup.append ih (List.nodup_singleton b) ?_
      intro x hx hxb
      rw [List.mem_singleton] at hxb
      exact hb (hxb ▸ hx)

theorem head?_append_left {α : Type} {xs : List α} (ys : List α) {a : α}
    (h : xs.head? = some a) : (xs ++ ys).head? = some a := by
  cases xs with
  | nil => simp at h
  | cons x xs => simpa using h

theorem parse_concat (l : List Row) (r : Row) :
    parseFileAndGroupOrders (l ++ [r]) = addRow (parseFileAndGroupOrders l) r := by
  simp [parseFileAndGroupOrders, List.foldl_append]

theorem survRows_concat (l : List Row) (r : Row) :
    survRows (l ++ [r]) = survRows l ++ if keepRow r then [r] else [] := by
  by_cases h : keepRow r <;> simp [survRows, List.filter_append, h]

theorem rowsFor_concat (l : List Row) (r : Row) (b : JVal) :
    rowsFor (l ++ [r]) b =
      rowsFor l b ++ if keepRow r ∧ r.bill_number = b then [r] else [] := by
  rw [rowsFor, survRows_concat, List.filter_append]
  by_cases hk : keepRow r
  · by_cases hb : r.bill_number = b <;> simp [rowsFor, hk, hb]
  · simp [rowsFor, hk]

theorem hasBill_iff (acc : List OrderAgg) (b : JVal) :
    hasBill acc b = true ↔ b ∈ acc.map billOf := by
  rw [hasBill, List.any_eq_true]
  constructor
  · rintro ⟨a, ha, he⟩
    exact List.mem_map.mpr ⟨a, ha, of_decide_eq_true he⟩
  · intro h
    obtain ⟨a, ha, he⟩ := List.mem_map.mp h
    exact ⟨a, ha, decide_eq_true he⟩

theorem pushItem_map_billOf (acc : List OrderAgg) (b : JVal) (it : Item) :
    (pushItem acc b it).map billOf = acc.map billOf := by
  induction acc with
  | nil => rfl
  | cons a acc ih =>
    simp only [pushItem, List.map_cons] at ih ⊢
    rw [ih]
    congr 1
    split <;> rfl

theorem rowsFor_nil_of_not_mem (l : List Row) (b : JVal)
    (h : b ∉ (survRows l).map (·.bill_number)) : rowsFor l b = [] := by
  rw [rowsFor, List.filter_eq_nil_iff]
  intro r hr
  simp only [decide_eq_true_eq]
  intro he
  exact h (List.mem_map.mpr ⟨r, hr, he⟩)

theorem addRow_drop (acc : List OrderAgg) (r : Row) (hk : keepRow r = false) :
    addRow acc r = acc := by
  simp [addRow, hk]

theorem addRow_keep_old (acc : List OrderAgg) (r : Row) (hk : keepRow r = true)
    (hmem : hasBill acc r.bill_number = true) :
    addRow acc r = pushItem acc r.bill_number (mkItem r) := by
  simp [addRow, hk, hmem]

theorem pushItem_no_match (acc : List OrderAgg) (b : JVal) (it : Item)
    (hno : b ∉ acc.map billOf) : pushItem acc b it = acc := by
  induction acc with
  | nil => rfl
  | cons a acc ih =>
    simp only [List.map_cons, List.mem_cons, not_or] at hno
    obtain ⟨h1, h2⟩ := hno
    simp only [pushItem, List.map_cons] at ih ⊢
    rw [if_neg fun h => h1 h.symm, ih h2]

theorem addRow_keep_new (acc : List OrderAgg) (r : Row) (hk : keepRow r = true)
    (hmem : hasBill acc r.bill_number = false) :
    addRow acc r = acc ++ [{ data := r, items := [mkItem r] }] := by
  have hno : r.bill_number ∉ acc.map billOf := by
    intro h
    rw [← hasBill_iff, hmem] at h
    cases h
  have hpush : pushItem (acc ++ [{ data := r, items := [] }]) r.bill_number (mkItem r) =
      acc ++ [{ data := r, items := [mkItem r] }] := by
    rw [pushItem, List.map_append]
    congr 1
    · exact pushItem_no_match acc _ _ hno
    · simp [billOf]
  simp only [addRow, hk, hmem]
  simpa using hpush

theorem group_char (rows : List Row) :
    (parseFileAndGroupOrders rows).map billOf =
      firstKeys ((survRows rows).map (·.bill_number)) ∧
    ∀ a ∈ parseFileAndGroupOrders rows,
      a.items = (rowsFor rows (billOf a)).map mkItem ∧
      (rowsFor rows (billOf a)).head? = some a.data := by
  induction rows using List.reverseRecOn with
  | nil =>
    constructor
    · rfl
    · intro a ha; simp [parseFileAndGroupOrders] at ha
  | append_singleton l r ih =>
    obtain ⟨ih1, ih2⟩ := ih
    rw [parse_concat]
    by_cases hk : keepRow r = true
    case neg =>
      have hkf : keepRow r = false := by
        cases hkb : keepRow r
        · rfl
        · exact absurd hkb hk
      have hsv : survRows (l ++ [r]) = survRows l := by simp [survRows_concat, hkf]
      have hrf : ∀ b, rowsFor (l ++ [r]) b = rowsFor l b := by
        intro b; simp [rowsFor_concat, hkf]
      rw [addRow_drop _ _ hkf, hsv]
      exact ⟨ih1, fun a ha => by rw [hrf]; exact ih2 a ha⟩
    case pos =>
      have hsv : survRows (l ++ [r]) = survRows l ++ [r] := by
        simp [survRows_concat, hk]
      have hrf : ∀ b, rowsFor (l ++ [r]) b =
          rowsFor l b ++ if r.bill_number = b then [r] else [] := by
        intro b
        rw [rowsFor_concat]
        by_cases hb : r.bill_number = b <;> simp [hk, hb]
      cases hmem : hasBill (parseFileAndGroupOrders l) r.bill_number
      case true =>
        have haddu := addRow_keep_old (parseFileAndGroupOrders l) r hk hmem
        have hbin : r.bill_number ∈ firstKeys ((survRows l).map (·.bill_number)) := by
          rw [← ih1]; exact (hasBill_iff _ _).mp hmem
        constructor
        · rw [haddu, pushItem_map_billOf, ih1, hsv]
          simp only [List.map_append, List.map_cons, List.map_nil]
          rw [firstKeys_concat, if_pos hbin]
        · intro a' ha'
          rw [haddu] at ha'
          obtain ⟨a, ha, hae⟩ := List.mem_map.mp ha'
          by_cases hab : billOf a = r.bill_number
          · rw [if_pos hab] at hae
            have hbill : billOf a' = billOf a := by rw [← hae]; rfl
            have hdata : a'.data = a.data := by rw [← hae]
            have hitems : a'.items = a.items ++ [mkItem r] := by rw [← hae]
            obtain ⟨hi, hh⟩ := ih2 a ha
            have hrfa : rowsFor (l ++ [r]) (billOf a) = rowsFor l (billOf a) ++ [r] := by
              rw [hrf, if_pos hab.symm]
            refine ⟨?_, ?_⟩
            · rw [hbill, hitems, hrfa, List.map_append, hi]; rfl
            · rw [hbill, hdata, hrfa]
              exact head?_append_left _ hh
          · rw [if_neg hab] at hae
            subst hae
            have hne : r.bill_number ≠ billOf a := fun h => hab h.symm
            have hrfa : rowsFor (l ++ [r]) (billOf a) = rowsFor l (billOf a) := by
              rw [hrf, if_neg hne, List.append_nil]
            rw [hrfa]
            exact ih2 a ha
      case false =>
        have haddu := addRow_keep_new (parseFileAndGroupOrders l) r hk hmem
        have hnotin : r.bill_number ∉ (parseFileAndGroupOrders l).map billOf := by
          intro h
          rw [← hasBill_iff, hmem] at h
          cases h
        have hnotsurv : r.bill_number ∉ (survRows l).map (·.bill_number) := by
          intro h
          exact hnotin (by rw [ih1, mem_firstKeys]; exact h)
        have hbnotin : r.bill_number ∉ firstKeys ((survRows l).map (·.bill_number)) := by
          rw [mem_firstKeys]; exact hnotsurv
        constructor
        · rw [haddu, hsv]
          simp only [List.map_append, List.map_cons, List.map_nil]
          rw [ih1, firstKeys_concat, if_neg hbnotin]
          rfl
        · intro a' ha'
          rw [haddu] at ha'
          rcases List.mem_append.mp ha' with hin | hnew
          · have hab : billOf a' ≠ r.bill_number := by
              intro h
              exact hnotin (h ▸ List.mem_map.mpr ⟨a', hin, rfl⟩)
            have hne : r.bill_number ≠ billOf a' := fun h => hab h.symm
            have hrfa : rowsFor (l ++ [r]) (billOf a') = rowsFor l (billOf a') := by
              rw [hrf, if_neg hne, List.append_nil]
            rw [hrfa]
            exact ih2 a' hin
          · rw [List.mem_singleton] at hnew
            subst hnew
            have hba : billOf { data := r, items := [mkItem r] } = r.bill_number := rfl
            have hrfa : rowsFor (l ++ [r]) r.bill_number = [r] := by
              rw [hrf, if_pos rfl, rowsFor_nil_of_not_mem l _ hnotsurv]
              rfl
            rw [hba, hrfa]
            exact ⟨rfl, rfl⟩

/-! ## Customer resolution: helper lemmas -/

theorem fOCC_error (orderData : Row) (db : DB) (h : ¬ resOk db orderData) :
    findOrCreateCustomer orderData db = .error "MissingIdentityKey" := by
  have he : emailOf orderData = "" := by
    by_cases he0 : emailOf orderData = ""
    · exact he0
    · exact absurd (Or.inl he0) h
  by_cases hp0 : normalizePhone orderData.phone = ""
  · simp [findOrCreateCustomer, hp0, he]
  · cases hfind : db.customers.find? fun c =>
        decide (normalizePhone orderData.phone ∈ c.all_phones) with
    | some c =>
      have hpa := List.find?_some hfind
      simp only [decide_eq_true_eq] at hpa
      exact absurd (show resOk db orderData from Or.inr ⟨hp0, c,
        List.mem_of_find?_eq_some hfind, hpa⟩) h
    | none => simp [findOrCreateCustomer, hp0, hfind, he]

theorem fOCC_err_imp (orderData : Row) (db : DB) (e : String)
    (h : findOrCreateCustomer orderData db = .error e) : ¬ resOk db orderData := by
  simp only [findOrCreateCustomer] at h
  split at h
  · simp at h
  · rename_i heqfound
    split at h
    · rename_i hemail
      intro hres
      rcases hres with he | ⟨hp, c, hc, hmem⟩
      · exact he hemail
      · rw [if_pos hp] at heqfound
        cases hfind : db.customers.find? fun c =>
            decide (normalizePhone orderData.phone ∈ c.all_phones) with
        | some cx => rw [hfind] at heqfound; simp at heqfound
        | none => exact List.find?_eq_none.mp hfind c hc (decide_eq_true hmem)
    · simp at h

theorem fOCC_ok_of_resOk (orderData : Row) (db : DB) (h : resOk db orderData) :
    ∃ c db1, findOrCreateCustomer orderData db = .ok (c, db1) := by
  cases hf : findOrCreateCustomer orderData db with
  | ok res =>
    obtain ⟨c, db1⟩ := res
    exact ⟨c, db1, rfl⟩
  | error e => exact absurd h (fOCC_err_imp orderData db e hf)

theorem fOCC_ok_fields (orderData : Row) (db : DB) (c : Customer) (db1 : DB)
    (h : findOrCreateCustomer orderData db = .ok (c, db1)) :
    db1.orders = db.orders ∧ db1.nextOrderId = db.nextOrderId ∧
    db1.products = db.products ∧ db1.nextProductId = db.nextProductId ∧
    db1.orderItems = db.orderItems := by
  simp only [findOrCreateCustomer] at h
  split at h
  · simp only [Except.ok.injEq, Prod.mk.injEq] at h
    obtain ⟨-, h2⟩ := h
    subst h2
    exact ⟨rfl, rfl, rfl, rfl, rfl⟩
  · split at h
    · simp at h
    · simp only [Except.ok.injEq, Prod.mk.injEq] at h
      obtain ⟨-, h2⟩ := h
      subst h2
      exact ⟨rfl, rfl, rfl, rfl, rfl⟩

/-! ## Store growth and well-formedness -/

theorem custLe_refl (db : DB) : custLe db db :=
  fun c hc => ⟨c, hc, rfl, fun _ hp => hp, fun _ he => he⟩

theorem custLe_trans {a b c : DB} (h1 : custLe a b) (h2 : custLe b c) : custLe a c := by
  intro x hx
  obtain ⟨y, hy, he1, hp1, hm1⟩ := h1 x hx
  obtain ⟨z, hz, he2, hp2, hm2⟩ := h2 y hy
  exact ⟨z, hz, he2.trans he1, fun p hp => hp2 p (hp1 p hp), fun e he => hm2 e (hm1 e he)⟩

theorem custLe_of_customers_eq {db db' : DB} (h : db'.customers = db.customers) :
    custLe db db' :=
  fun c hc => ⟨c, h ▸ hc, rfl, fun _ hp => hp, fun _ he => he⟩

theorem custIdsOk_congr {db db' : DB} (hc : db'.customers = db.customers)
    (hn : db'.nextCustomerId = db.nextCustomerId) (h : custIdsOk db) : custIdsOk db' := by
  constructor
  · intro c hcm
    rw [hc] at hcm
    rw [hn]
    exact h.1 c hcm
  · rw [hc]
    exact h.2

theorem resOk_mono {db db' : DB} (h : custLe db db') {r : Row} (hr : resOk db r) :
    resOk db' r := by
  rcases hr with he | ⟨hp, c, hc, hmem⟩
  · exact Or.inl he
  · obtain ⟨c', hc', _, hph, _⟩ := h c hc
    exact Or.inr ⟨hp, c', hc', hph _ hmem⟩

theorem mergeCustomer_id (orderData : Row) (phone email : String) (c : Customer) :
    (mergeCustomer orderData phone email c).id = c.id := rfl

theorem mergeCustomer_email (orderData : Row) (phone email : String) (c : Customer) :
    (mergeCustomer orderData phone email c).email = c.email := rfl

theorem mergeCustomer_phones (orderData : Row) (phone email : String) (c : Customer) :
    (mergeCustomer orderData phone email c).all_phones =
      c.all_phones ++ if phone ≠ "" ∧ phone ∉ c.all_phones then [phone] else [] := by
  show (if phone ≠ "" ∧ phone ∉ c.all_phones then c.all_phones ++ [phone] else c.all_phones) =
    c.all_phones ++ if phone ≠ "" ∧ phone ∉ c.all_phones then [phone] else []
  by_cases h : phone ≠ "" ∧ phone ∉ c.all_phones <;> simp [h]

theorem mergeCustomer_emails (orderData : Row) (phone email : String) (c : Customer) :
    (mergeCustomer orderData phone email c).all_emails =
      c.all_emails ++ if email ≠ "" ∧ email ∉ c.all_emails then [email] else [] := by
  show (if email ≠ "" ∧ email ∉ c.all_emails then c.all_emails ++ [email] else c.all_emails) =
    c.all_emails ++ if email ≠ "" ∧ email ∉ c.all_emails then [email] else []
  by_cases h : email ≠ "" ∧ email ∉ c.all_emails <;> simp [h]

theorem customersUpd_custLe (db : DB) (orderData : Row) (phone email : String)
    (customer : Customer) (hmem : customer ∈ db.customers) (hids : custIdsOk db) :
    custLe db { db with customers := db.customers.map fun x =>
      if x.id = customer.id then mergeCustomer orderData phone email customer else x } := by
  intro c0 hc0
  by_cases hid : c0.id = customer.id
  · have hc0e : c0 = customer := List.inj_on_of_nodup_map hids.2 hc0 hmem hid
    subst hc0e
    refine ⟨mergeCustomer orderData phone email c0,
      List.mem_map.mpr ⟨c0, hc0, by rw [if_pos hid]⟩, mergeCustomer_email _ _ _ _, ?_, ?_⟩
    · intro p hp
      rw [mergeCustomer_phones]
      exact List.mem_append_left _ hp
    · intro e he
      rw [mergeCustomer_emails]
      exact List.mem_append_left _ he
  · exact ⟨c0, List.mem_map.mpr ⟨c0, hc0, by rw [if_neg hid]⟩, rfl,
      fun _ hp => hp, fun _ he => he⟩

theorem customersUpd_idsOk (db : DB) (orderData : Row) (phone email : String)
    (customer : Customer) (hids : custIdsOk db) :
    custIdsOk { db with customers := db.customers.map fun x =>
      if x.id = customer.id then mergeCustomer orderData phone email customer else x } := by
  have hidmap : ∀ x : Customer,
      (if x.id = customer.id then mergeCustomer orderData phone email customer else x).id =
        x.id := by
    intro x
    by_cases h : x.id = customer.id
    · rw [if_pos h, mergeCustomer_id, h]
    · rw [if_neg h]
  constructor
  · intro c' hc'
    obtain ⟨x, hx, hxe⟩ := List.mem_map.mp hc'
    have hce : c'.id = x.id := by rw [← hxe, hidmap]
    show c'.id < db.nextCustomerId
    rw [hce]
    exact hids.1 x hx
  · show ((db.customers.map fun x =>
      if x.id = customer.id then mergeCustomer orderData phone email customer else x).map
        (·.id)).Nodup
    rw [List.map_map]
    have heq : ((fun c : Customer => c.id) ∘ fun x =>
        if x.id = customer.id then mergeCustomer orderData phone email customer else x) =
        fun c : Customer => c.id := funext fun x => hidmap x
    rw [heq]
    exact hids.2

theorem customersAppend_custLe (db : DB) (newC : Customer) :
    custLe db { db with customers := db.customers ++ [newC]
                        nextCustomerId := db.nextCustomerId + 1 } :=
  fun c hc => ⟨c, List.mem_append_left _ hc, rfl, fun _ hp => hp, fun _ he => he⟩

theorem customersAppend_idsOk (db : DB) (newC : Customer)
    (hid : newC.id = db.nextCustomerId) (hids : custIdsOk db) :
    custIdsOk { db with customers := db.customers ++ [newC]
                        nextCustomerId := db.nextCustomerId + 1 } := by
  constructor
  · intro c hc
    rcases List.mem_append.mp hc with hc | hc
    · exact Nat.lt_trans (hids.1 c hc) (Nat.lt_succ_self _)
    · rw [List.mem_singleton] at hc
      subst hc
      show c.id < db.nextCustomerId + 1
      rw [hid]
      exact Nat.lt_succ_self _
  · show ((db.customers ++ [newC]).map (·.id)).Nodup
    rw [List.map_append]
    refine List.Nodup.append hids.2 (by simp) ?_
    intro x hx hxs
    simp only [List.map_cons, List.map_nil, List.mem_singleton] at hxs
    obtain ⟨c, hc, hce⟩ := List.mem_map.mp hx
    rw [hxs, hid] at hce
    exact absurd hce (Nat.ne_of_lt (hids.1 c hc))

theorem fOCC_custLe (orderData : Row) (db : DB) (c : Customer) (db1 : DB)
    (hids : custIdsOk db) (h : findOrCreateCustomer orderData db = .ok (c, db1)) :
    custLe db db1 ∧ custIdsOk db1 := by
  simp only [findOrCreateCustomer] at h
  split at h
  · rename_i customer heqfound
    have hmem : customer ∈ db.customers := by
      by_cases hp0 : normalizePhone orderData.phone = ""
      case pos =>
        by_cases he0 : emailOf orderData = ""
        · simp [hp0, he0] at heqfound
        · cases hfind2 : db.customers.find? fun x => decide (x.email = emailOf orderData) with
          | some cx =>
            simp [hp0, he0, hfind2] at heqfound
            exact heqfound ▸ List.mem_of_find?_eq_some hfind2
          | none => simp [hp0, he0, hfind2] at heqfound
      case neg =>
        cases hfind : db.customers.find? fun x =>
            decide (normalizePhone orderData.phone ∈ x.all_phones) with
        | some cx =>
          simp [hp0, hfind] at heqfound
          exact heqfound ▸ List.mem_of_find?_eq_some hfind
        | none =>
          by_cases he0 : emailOf orderData = ""
          · simp [hp0, hfind, he0] at heqfound
          · cases hfind2 : db.customers.find? fun x => decide (x.email = emailOf orderData) with
            | some cx =>
              simp [hp0, hfind, he0, hfind2] at heqfound
              exact heqfound ▸ List.mem_of_find?_eq_some hfind2
            | none => simp [hp0, hfind, he0, hfind2] at heqfound
    simp only [Except.ok.injEq, Prod.mk.injEq] at h
    obtain ⟨-, h2⟩ := h
    subst h2
    exact ⟨customersUpd_custLe db orderData _ _ customer hmem hids,
      customersUpd_idsOk db orderData _ _ customer hids⟩
  · split at h
    · simp at h
    · simp only [Except.ok.injEq, Prod.mk.injEq] at h
      obtain ⟨-, h2⟩ := h
      subst h2
      exact ⟨customersAppend_custLe db _, customersAppend_idsOk db _ rfl hids⟩

/-! ## Product resolution and item staging: helper lemmas -/

theorem fOCP_error (itemData : Item) (db : DB) (h : ¬ itemData.product_id.truthy = true) :
    findOrCreateProduct itemData db = .error "MissingProductKey" := by
  simp [findOrCreateProduct, h]

theorem fOCP_ok (itemData : Item) (db : DB) (h : itemData.product_id.truthy = true) :
    ∃ p db1, findOrCreateProduct itemData db = .ok (p, db1) := by
  cases hf : findOrCreateProduct itemData db with
  | ok res =>
    obtain ⟨p, db1⟩ := res
    exact ⟨p, db1, rfl⟩
  | error e =>
    simp only [findOrCreateProduct] at hf
    rw [if_neg (fun hc => hc h)] at hf
    split at hf <;> simp at hf

theorem fOCP_ok_fields (itemData : Item) (db : DB) (p : ProductRow) (db1 : DB)
    (h : findOrCreateProduct itemData db = .ok (p, db1)) :
    db1.orders = db.orders ∧ db1.customers = db.customers ∧
    db1.nextCustomerId = db.nextCustomerId ∧ db1.nextOrderId = db.nextOrderId ∧
    db1.orderItems = db.orderItems := by
  simp only [findOrCreateProduct] at h
  split at h
  · simp at h
  · split at h
    · simp only [Except.ok.injEq, Prod.mk.injEq] at h
      obtain ⟨-, h2⟩ := h
      subst h2
      exact ⟨rfl, rfl, rfl, rfl, rfl⟩
    · simp only [Except.ok.injEq, Prod.mk.injEq] at h
      obtain ⟨-, h2⟩ := h
      subst h2
      exact ⟨rfl, rfl, rfl, rfl, rfl⟩

theorem stageItems_ok (oid : Nat) (items : List Item) : ∀ db : DB, itemsOk items →
    ∃ staged db1, stageItems oid db items = .ok (staged, db1) ∧
      db1.orders = db.orders ∧ db1.customers = db.customers ∧
      db1.nextCustomerId = db.nextCustomerId ∧ db1.nextOrderId = db.nextOrderId ∧
      db1.orderItems = db.orderItems := by
  induction items with
  | nil =>
    intro db _
    exact ⟨[], db, rfl, rfl, rfl, rfl, rfl, rfl⟩
  | cons it rest ih =>
    intro db h
    have hit : it.product_id.truthy = true := h it (List.mem_cons_self _ _)
    have hrest : itemsOk rest := fun x hx => h x (List.mem_cons_of_mem _ hx)
    obtain ⟨p, dbp, hfp⟩ := fOCP_ok it db hit
    obtain ⟨hpo, hpc, hpnc, hpno, hpoi⟩ := fOCP_ok_fields it db p dbp hfp
    obtain ⟨staged, db1, hst, ho, hc, hnc, hno, hoi⟩ := ih dbp hrest
    refine ⟨mkOrderItemRow oid it p.id :: staged, db1, ?_, ho.trans hpo, hc.trans hpc,
      hnc.trans hpnc, hno.trans hpno, hoi.trans hpoi⟩
    simp only [stageItems, hfp, hst]

theorem stageItems_error (oid : Nat) (items : List Item) : ∀ db : DB, ¬ itemsOk items →
    ∃ e, stageItems oid db items = .error e := by
  induction items with
  | nil =>
    intro db h
    exact absurd (fun x hx => absurd hx (List.not_mem_nil x)) h
  | cons it rest ih =>
    intro db h
    by_cases hit : it.product_id.truthy = true
    · have hrest : ¬ itemsOk rest := by
        intro hr
        refine h fun x hx => ?_
        rcases List.mem_cons.mp hx with rfl | hx
        · exact hit
        · exact hr x hx
      obtain ⟨p, dbp, hfp⟩ := fOCP_ok it db hit
      obtain ⟨e, hst⟩ := ih dbp hrest
      exact ⟨e, by simp only [stageItems, hfp, hst]⟩
    · exact ⟨"MissingProductKey", by simp only [stageItems, fOCP_error it db hit]⟩

/-! ## The order committer: case analysis -/

theorem processOrder_not_resOk (db : DB) (o : OrderAgg) (h : ¬ resOk db o.data) :
    processOrder db o = (.failed, db) := by
  simp only [processOrder, fOCC_error o.data db h]

theorem processOrder_dup (db : DB) (o : OrderAgg) (h : resOk db o.data)
    (hb : billOf o ∈ orderBills db) : processOrder db o = (.skipped, db) := by
  obtain ⟨c, db1, hf⟩ := fOCC_ok_of_resOk o.data db h
  obtain ⟨ho, -, -, -, -⟩ := fOCC_ok_fields o.data db c db1 hf
  have hfind : (db1.orders.find? fun orow =>
      decide (orow.bill_number = o.data.bill_number)).isSome = true := by
    rw [ho, List.find?_isSome]
    obtain ⟨orow, hor, he⟩ := List.mem_map.mp hb
    exact ⟨orow, hor, decide_eq_true he⟩
  simp only [processOrder, hf, hfind, if_true]

theorem find_dup_none (db1 db : DB) (o : OrderAgg) (hb : billOf o ∉ orderBills db)
    (ho : db1.orders = db.orders) :
    db1.orders.find? (fun orow => decide (orow.bill_number = o.data.bill_number)) = none := by
  rw [ho, List.find?_eq_none]
  intro orow hor hdec
  exact hb (List.mem_map.mpr ⟨orow, hor, of_decide_eq_true hdec⟩)

theorem processOrder_bad_items (db : DB) (o : OrderAgg) (h : resOk db o.data)
    (hb : billOf o ∉ orderBills db) (hi : ¬ itemsOk o.items) :
    processOrder db o = (.failed, db) := by
  obtain ⟨c, db1, hf⟩ := fOCC_ok_of_resOk o.data db h
  obtain ⟨ho, -, -, -, -⟩ := fOCC_ok_fields o.data db c db1 hf
  have hfindn := find_dup_none db1 db o hb ho
  obtain ⟨e, hst⟩ := stageItems_error (mkOrderRow o c db1.nextOrderId).id o.items
    { db1 with orders := db1.orders ++ [mkOrderRow o c db1.nextOrderId]
               nextOrderId := db1.nextOrderId + 1 } hi
  simp only [processOrder, hf, hfindn, Option.isSome_none, Bool.false_eq_true, if_false, hst]

theorem processOrder_success_parts (db : DB) (o : OrderAgg) (h : resOk db o.data)
    (hb : billOf o ∉ orderBills db) (hi : itemsOk o.items) :
    (processOrder db o).1 = .success ∧
    orderBills (processOrder db o).2 = orderBills db ++ [billOf o] ∧
    ∃ c db1, findOrCreateCustomer o.data db = .ok (c, db1) ∧
      (processOrder db o).2.customers = db1.customers ∧
      (processOrder db o).2.nextCustomerId = db1.nextCustomerId := by
  obtain ⟨c, db1, hf⟩ := fOCC_ok_of_resOk o.data db h
  obtain ⟨ho, -, -, -, -⟩ := fOCC_ok_fields o.data db c db1 hf
  have hfindn := find_dup_none db1 db o hb ho
  obtain ⟨staged, db3, hst, ho3, hc3, hnc3, -, -⟩ := stageItems_ok
    (mkOrderRow o c db1.nextOrderId).id o.items
    { db1 with orders := db1.orders ++ [mkOrderRow o c db1.nextOrderId]
               nextOrderId := db1.nextOrderId + 1 } hi
  have hpo : processOrder db o =
      (.success, { db3 with orderItems := db3.orderItems ++ staged }) := by
    simp only [processOrder, hf, hfindn, Option.isSome_none, Bool.false_eq_true, if_false, hst]
  rw [hpo]
  refine ⟨rfl, ?_, c, db1, hf, hc3, hnc3⟩
  show db3.orders.map (·.bill_number) = orderBills db ++ [billOf o]
  rw [ho3]
  show ((db1.orders ++ [mkOrderRow o c db1.nextOrderId]).map (·.bill_number)) = _
  rw [List.map_append, ho]
  rfl

theorem processOrder_not_success_db (db : DB) (o : OrderAgg)
    (h : (processOrder db o).1 ≠ .success) : (processOrder db o).2 = db := by
  by_cases h1 : resOk db o.data
  · by_cases h2 : billOf o ∈ orderBills db
    · rw [processOrder_dup db o h1 h2]
    · by_cases h3 : itemsOk o.items
      · exact absurd (processOrder_success_parts db o h1 h2 h3).1 h
      · rw [processOrder_bad_items db o h1 h2 h3]
  · rw [processOrder_not_resOk db o h1]

theorem processOrder_skipped_iff (db : DB) (o : OrderAgg) :
    (processOrder db o).1 = .skipped ↔ resOk db o.data ∧ billOf o ∈ orderBills db := by
  constructor
  · intro hs
    by_cases h1 : resOk db o.data
    · by_cases h2 : billOf o ∈ orderBills db
      · exact ⟨h1, h2⟩
      · by_cases h3 : itemsOk o.items
        · rw [(processOrder_success_parts db o h1 h2 h3).1] at hs
          simp at hs
        · rw [processOrder_bad_items db o h1 h2 h3] at hs
          simp at hs
    · rw [processOrder_not_resOk db o h1] at hs
      simp at hs
  · rintro ⟨h1, h2⟩
    rw [processOrder_dup db o h1 h2]

theorem processOrder_success_iff (db : DB) (o : OrderAgg) :
    (processOrder db o).1 = .success ↔
      resOk db o.data ∧ billOf o ∉ orderBills db ∧ itemsOk o.items := by
  constructor
  · intro hs
    by_cases h1 : resOk db o.data
    · by_cases h2 : billOf o ∈ orderBills db
      · rw [processOrder_dup db o h1 h2] at hs
        simp at hs
      · by_cases h3 : itemsOk o.items
        · exact ⟨h1, h2, h3⟩
        · rw [processOrder_bad_items db o h1 h2 h3] at hs
          simp at hs
    · rw [processOrder_not_resOk db o h1] at hs
      simp at hs
  · rintro ⟨h1, h2, h3⟩
    exact (processOrder_success_parts db o h1 h2 h3).1

theorem processOrder_orderBills (db : DB) (o : OrderAgg) :
    orderBills (processOrder db o).2 = orderBills db ++
      if (processOrder db o).1 = .success then [billOf o] else [] := by
  by_cases hs : (processOrder db o).1 = .success
  · rw [if_pos hs]
    obtain ⟨h1, h2, h3⟩ := (processOrder_success_iff db o).mp hs
    exact (processOrder_success_parts db o h1 h2 h3).2.1
  · rw [if_neg hs, processOrder_not_success_db db o hs, List.append_nil]

theorem processOrder_custLe (db : DB) (o : OrderAgg) (hids : custIdsOk db) :
    custLe db (processOrder db o).2 ∧ custIdsOk (processOrder db o).2 := by
  by_cases hs : (processOrder db o).1 = .success
  · obtain ⟨h1, h2, h3⟩ := (processOrder_success_iff db o).mp hs
    obtain ⟨-, -, c, db1, hf, hc, hnc⟩ := processOrder_success_parts db o h1 h2 h3
    obtain ⟨hle1, hids1⟩ := fOCC_custLe o.data db c db1 hids hf
    exact ⟨custLe_trans hle1 (custLe_of_customers_eq hc),
      custIdsOk_congr hc hnc hids1⟩
  · rw [processOrder_not_success_db db o hs]
    exact ⟨custLe_refl db, hids⟩

/-! ## The run loop -/

theorem runStep_fst (db : DB) (s : Summary) (o : OrderAgg) :
    (runStep (db, s) o).1 = (processOrder db o).2 := by
  rcases hp : processOrder db o with ⟨out, db'⟩
  cases out <;> simp [runStep, hp]

theorem runStep_counts (db : DB) (s : Summary) (o : OrderAgg) :
    (runStep (db, s) o).2.totalProcessed = s.totalProcessed ∧
    (runStep (db, s) o).2.successfulInserts = s.successfulInserts +
      (if (processOrder db o).1 = .success then 1 else 0) ∧
    (runStep (db, s) o).2.skippedDuplicates = s.skippedDuplicates +
      (if (processOrder db o).1 = .skipped then 1 else 0) ∧
    (runStep (db, s) o).2.failedInserts = s.failedInserts +
      (if (processOrder db o).1 = .failed then 1 else 0) := by
  rcases hp : processOrder db o with ⟨out, db'⟩
  cases out <;> simp [runStep, hp]

theorem runLoop_cons (db : DB) (s : Summary) (o : OrderAgg) (l : List OrderAgg) :
    runLoop db s (o :: l) = runLoop (runStep (db, s) o).1 (runStep (db, s) o).2 l := rfl

theorem runOutcomes_cons (db : DB) (o : OrderAgg) (l : List OrderAgg) :
    runOutcomes db (o :: l) = (processOrder db o).1 :: runOutcomes (processOrder db o).2 l :=
  rfl

theorem dbAfter_cons (db : DB) (o : OrderAgg) (l : List OrderAgg) :
    dbAfter db (o :: l) = dbAfter (processOrder db o).2 l := rfl

theorem countOf_cons (out x : Outcome) (os : List Outcome) :
    countOf out (x :: os) = countOf out os + if x = out then 1 else 0 := by
  rw [countOf, List.countP_cons, countOf]
  by_cases h : x = out <;> simp [h]

theorem countOf_sum (os : List Outcome) :
    countOf .success os + countOf .skipped os + countOf .failed os = os.length := by
  induction os with
  | nil => rfl
  | cons x os ih =>
    rw [countOf_cons, countOf_cons, countOf_cons, List.length_cons]
    cases x <;> simp <;> omega

theorem runLoop_counts (l : List OrderAgg) : ∀ (db : DB) (s : Summary),
    (runLoop db s l).2.totalProcessed = s.totalProcessed ∧
    (runLoop db s l).2.successfulInserts =
      s.successfulInserts + countOf .success (runOutcomes db l) ∧
    (runLoop db s l).2.skippedDuplicates =
      s.skippedDuplicates + countOf .skipped (runOutcomes db l) ∧
    (runLoop db s l).2.failedInserts =
      s.failedInserts + countOf .failed (runOutcomes db l) := by
  induction l with
  | nil =>
    intro db s
    refine ⟨rfl, ?_, ?_, ?_⟩ <;> simp [runLoop, runOutcomes, countOf]
  | cons o l ih =>
    intro db s
    rw [runLoop_cons, runOutcomes_cons, runStep_fst db s o]
    obtain ⟨iht, ihs, ihk, ihf⟩ := ih (runStep (db, s) o).1 (runStep (db, s) o).2
    obtain ⟨ht, hs, hk, hf⟩ := runStep_counts db s o
    rw [runStep_fst db s o] at iht ihs ihk ihf
    refine ⟨by rw [iht, ht], ?_, ?_, ?_⟩
    · rw [ihs, hs, countOf_cons]
      omega
    · rw [ihk, hk, countOf_cons]
      omega
    · rw [ihf, hf, countOf_cons]
      omega

theorem orderBills_dbAfter (l : List OrderAgg) : ∀ db : DB,
    orderBills (dbAfter db l) = orderBills db ++ successBills db l := by
  induction l with
  | nil => intro db; simp [dbAfter, successBills]
  | cons o l ih =>
    intro db
    rw [dbAfter_cons, ih, processOrder_orderBills]
    simp only [successBills]
    rw [List.append_assoc]

theorem successBills_subset (l : List OrderAgg) : ∀ (db : DB) (b : JVal),
    b ∈ successBills db l → b ∈ l.map billOf := by
  induction l with
  | nil => intro db b h; simp [successBills] at h
  | cons o l ih =>
    intro db b h
    simp only [successBills] at h
    rw [List.map_cons]
    rcases List.mem_append.mp h with h | h
    · by_cases hs : (processOrder db o).1 = .success
      · rw [if_pos hs, List.mem_singleton] at h
        subst h
        exact List.mem_cons_self _ _
      · rw [if_neg hs] at h
        cases h
    · exact List.mem_cons_of_mem _ (ih _ b h)

theorem custLe_dbAfter (l : List OrderAgg) : ∀ db : DB, custIdsOk db →
    custLe db (dbAfter db l) ∧ custIdsOk (dbAfter db l) := by
  induction l with
  | nil => intro db h; exact ⟨custLe_refl db, h⟩
  | cons o l ih =>
    intro db h
    obtain ⟨hle, hids⟩ := processOrder_custLe db o h
    obtain ⟨hle2, hids2⟩ := ih (processOrder db o).2 hids
    exact ⟨custLe_trans hle hle2, hids2⟩

/-! ## Two consecutive runs over the same aggregates -/

theorem two_run (l : List OrderAgg) : ∀ (dbA dbB : DB),
    custIdsOk dbA → custIdsOk dbB →
    (l.map billOf).Nodup →
    (∀ o ∈ l, billOf o ∉ orderBills dbA) →
    custLe (dbAfter dbA l) dbB →
    (∀ o ∈ l, (billOf o ∈ orderBills dbB ↔ billOf o ∈ successBills dbA l)) →
    countOf .skipped (runOutcomes dbB l) = countOf .success (runOutcomes dbA l) ∧
    countOf .success (runOutcomes dbB l) ≤ countOf .failed (runOutcomes dbA l) := by
  induction l with
  | nil =>
    intro dbA dbB _ _ _ _ _ _
    simp [runOutcomes, countOf]
  | cons o l ih =>
    intro dbA dbB hidsA hidsB hnd hA0 hle hB1
    have hndt : (l.map billOf).Nodup := by
      rw [List.map_cons] at hnd
      exact hnd.of_cons
    have hnotin : ∀ o' ∈ l, billOf o' ≠ billOf o := by
      intro o' ho' he
      rw [List.map_cons] at hnd
      exact (List.nodup_cons.mp hnd).1 (he ▸ List.mem_map.mpr ⟨o', ho', rfl⟩)
    have hb0 : billOf o ∉ orderBills dbA := hA0 o (List.mem_cons_self _ _)
    have hleAB : custLe dbA dbB :=
      custLe_trans (custLe_dbAfter (o :: l) dbA hidsA).1 hle
    by_cases hsucc : (processOrder dbA o).1 = .success
    case pos =>
      have hbB : billOf o ∈ orderBills dbB := by
        rw [hB1 o (List.mem_cons_self _ _)]
        simp only [successBills, if_pos hsucc]
        exact List.mem_append_left _ (List.mem_singleton_self _)
      have h1 : resOk dbA o.data := ((processOrder_success_iff dbA o).mp hsucc).1
      have hrB : resOk dbB o.data := resOk_mono hleAB h1
      have hpB : processOrder dbB o = (.skipped, dbB) := processOrder_dup dbB o hrB hbB
      have houtB : (processOrder dbB o).1 = .skipped := by rw [hpB]
      have hdbB : (processOrder dbB o).2 = dbB := by rw [hpB]
      have hidsA' : custIdsOk (processOrder dbA o).2 := (processOrder_custLe dbA o hidsA).2
      have hA0' : ∀ o' ∈ l, billOf o' ∉ orderBills (processOrder dbA o).2 := by
        intro o' ho'
        rw [processOrder_orderBills, if_pos hsucc]
        intro hmem
        rcases List.mem_append.mp hmem with hm | hm
        · exact hA0 o' (List.mem_cons_of_mem _ ho') hm
        · rw [List.mem_singleton] at hm
          exact hnotin o' ho' hm
      have hle' : custLe (dbAfter (processOrder dbA o).2 l) dbB := hle
      have hB1' : ∀ o' ∈ l, (billOf o' ∈ orderBills dbB ↔
          billOf o' ∈ successBills (processOrder dbA o).2 l) := by
        intro o' ho'
        rw [hB1 o' (List.mem_cons_of_mem _ ho')]
        simp only [successBills, if_pos hsucc]
        constructor
        · intro hm
          rcases List.mem_append.mp hm with hm | hm
          · rw [List.mem_singleton] at hm
            exact absurd hm (hnotin o' ho')
          · exact hm
        · intro hm
          exact List.mem_append_right _ hm
      obtain ⟨ihe, ihle⟩ := ih (processOrder dbA o).2 dbB hidsA' hidsB hndt hA0' hle' hB1'
      rw [runOutcomes_cons, runOutcomes_cons, houtB, hdbB, hsucc]
      constructor
      · rw [countOf_cons, countOf_cons, ihe]
        simp
      · rw [countOf_cons, countOf_cons]
        simpa using ihle
    case neg =>
      have hfA : processOrder dbA o = (.failed, dbA) := by
        by_cases h1 : resOk dbA o.data
        · by_cases h3 : itemsOk o.items
          · exact absurd ((processOrder_success_iff dbA o).mpr ⟨h1, hb0, h3⟩) hsucc
          · exact processOrder_bad_items dbA o h1 hb0 h3
        · exact processOrder_not_resOk dbA o h1
      have houtA : (processOrder dbA o).1 = .failed := by rw [hfA]
      have hdbA : (processOrder dbA o).2 = dbA := by rw [hfA]
      have hsbA : successBills dbA (o :: l) = successBills dbA l := by
        simp only [successBills, houtA, hdbA]
        simp
      have hnotB : billOf o ∉ orderBills dbB := by
        rw [hB1 o (List.mem_cons_self _ _), hsbA]
        intro hmem
        obtain ⟨o', ho', he⟩ := List.mem_map.mp (successBills_subset l dbA _ hmem)
        exact hnotin o' ho' he
      have houtB : (processOrder dbB o).1 ≠ .skipped := by
        intro hsk
        exact hnotB ((processOrder_skipped_iff dbB o).mp hsk).2
      have hidsA' : custIdsOk (processOrder dbA o).2 := by
        rw [hdbA]
        exact hidsA
      have hidsB' : custIdsOk (processOrder dbB o).2 := (processOrder_custLe dbB o hidsB).2
      have hA0' : ∀ o' ∈ l, billOf o' ∉ orderBills (processOrder dbA o).2 := by
        intro o' ho'
        rw [hdbA]
        exact hA0 o' (List.mem_cons_of_mem _ ho')
      have hle' : custLe (dbAfter (processOrder dbA o).2 l) (processOrder dbB o).2 :=
        custLe_trans hle (processOrder_custLe dbB o hidsB).1
      have hB1' : ∀ o' ∈ l, (billOf o' ∈ orderBills (processOrder dbB o).2 ↔
          billOf o' ∈ successBills (processOrder dbA o).2 l) := by
        intro o' ho'
        rw [processOrder_orderBills]
        have htail : billOf o' ∈ orderBills dbB ↔
            billOf o' ∈ successBills (processOrder dbA o).2 l := by
          rw [hB1 o' (List.mem_cons_of_mem _ ho'), hsbA, hdbA]
        constructor
        · intro hm
          rcases List.mem_append.mp hm with hm | hm
          · exact htail.mp hm
          · by_cases hsB : (processOrder dbB o).1 = .success
            · rw [if_pos hsB, List.mem_singleton] at hm
              exact absurd hm (hnotin o' ho')
            · rw [if_neg hsB] at hm
              cases hm
        · intro hm
          exact List.mem_append_left _ (htail.mpr hm)
      obtain ⟨ihe, ihle⟩ := ih (processOrder dbA o).2 (processOrder dbB o).2 hidsA' hidsB'
        hndt hA0' hle' hB1'
      rw [runOutcomes_cons, runOutcomes_cons, houtA]
      constructor
      · rw [countOf_cons, countOf_cons, ihe, if_neg houtB]
        simp
      · rw [countOf_cons, countOf_cons]
        have h1b : (if (processOrder dbB o).1 = Outcome.success then 1 else 0) ≤ 1 := by
          split <;> omega
        have h1a : (if Outcome.failed = Outcome.failed then 1 else 0) = 1 := if_pos rfl
        omega

/-! ## Delta auditor: helper lemmas -/

theorem srcBill_some (rec : Option String) (b : String) (h : srcBill rec = some b) :
    deltaBill rec = some b ∧ b ≠ "" := by
  cases hdb : deltaBill rec with
  | none => rw [srcBill, hdb] at h; cases h
  | some bx =>
    rw [srcBill, hdb] at h
    have h2 : (if bx ≠ "" then some bx else none) = some b := h
    by_cases hb : bx ≠ ""
    · rw [if_pos hb] at h2
      injection h2 with h2
      subst h2
      exact ⟨rfl, hb⟩
    · rw [if_neg hb] at h2
      cases h2

theorem deltaStep_none (st : DeltaState) (rec : Option String) (h : srcBill rec = none) :
    deltaStep st rec = st := by
  cases hdb : deltaBill rec with
  | none => simp [deltaStep, hdb]
  | some b =>
    rw [srcBill, hdb] at h
    by_cases hb : b = ""
    · simp [deltaStep, hdb, hb]
    · simp [hb] at h

theorem deltaStep_some (st : DeltaState) (rec : Option String) (b : String)
    (hdb : deltaBill rec = some b) (hb : b ≠ "") :
    deltaStep st rec =
      if b ∈ st.csvBillNumbers then st
      else if b ∈ st.dbBills then
        { st with csvBillNumbers := st.csvBillNumbers ++ [b]
                  matched := st.matched + 1
                  dbBills := st.dbBills.erase b }
      else
        { st with csvBillNumbers := st.csvBillNumbers ++ [b]
                  missingInDb := st.missingInDb ++ [b] } := by
  simp [deltaStep, hdb, hb]

theorem srcKeys_concat_none (records : List (Option String)) (rec : Option String)
    (h : srcBill rec = none) : srcKeys (records ++ [rec]) = srcKeys records := by
  have hfm : List.filterMap srcBill [rec] = [] := by simp [h]
  rw [srcKeys, List.filterMap_append, hfm, List.append_nil, srcKeys]

theorem srcKeys_concat_some (records : List (Option String)) (rec : Option String)
    (b : String) (h : srcBill rec = some b) :
    srcKeys (records ++ [rec]) =
      if b ∈ srcKeys records then srcKeys records else srcKeys records ++ [b] := by
  have hfm : List.filterMap srcBill [rec] = [b] := by simp [h]
  rw [srcKeys, List.filterMap_append, hfm, firstKeys_concat, srcKeys]

theorem delta_invariant (dbS : List String) (hnd : dbS.Nodup) :
    ∀ records : List (Option String),
    records.foldl deltaStep { dbBills := dbS } =
      { csvBillNumbers := srcKeys records
        dbBills := dbS.filter fun b => decide (b ∉ srcKeys records)
        matched := ((srcKeys records).filter fun b => decide (b ∈ dbS)).length
        missingInDb := (srcKeys records).filter fun b => decide (b ∉ dbS) } := by
  intro records
  induction records using List.reverseRecOn with
  | nil =>
    have h2 : (dbS.filter fun b => decide (b ∉ srcKeys [])) = dbS :=
      List.filter_eq_self.mpr fun x _ => by simp [srcKeys, firstKeys]
    rw [h2]
    rfl
  | append_singleton recs rec ih =>
    rw [List.foldl_append, List.foldl_cons, List.foldl_nil, ih]
    cases hsb : srcBill rec with
    | none =>
      rw [deltaStep_none _ _ hsb, srcKeys_concat_none _ _ hsb]
    | some b =>
      obtain ⟨hdb, hb⟩ := srcBill_some rec b hsb
      rw [deltaStep_some _ _ _ hdb hb, srcKeys_concat_some _ _ _ hsb]
      dsimp only
      by_cases hmem : b ∈ srcKeys recs
      · simp only [if_pos hmem]
      · simp only [if_neg hmem]
        have hdbmem : b ∈ (dbS.filter fun x => decide (x ∉ srcKeys recs)) ↔ b ∈ dbS := by
          rw [List.mem_filter]
          constructor
          · exact fun h => h.1
          · exact fun h => ⟨h, decide_eq_true hmem⟩
        by_cases hbd : b ∈ dbS
        · rw [if_pos (hdbmem.mpr hbd)]
          have hcsv : ((srcKeys recs ++ [b]).filter fun x => decide (x ∈ dbS)) =
              ((srcKeys recs).filter fun x => decide (x ∈ dbS)) ++ [b] := by
            rw [List.filter_append]
            simp [hbd]
          have hmiss : ((srcKeys recs ++ [b]).filter fun x => decide (x ∉ dbS)) =
              (srcKeys recs).filter fun x => decide (x ∉ dbS) := by
            rw [List.filter_append]
            simp [hbd]
          have herase : ((dbS.filter fun x => decide (x ∉ srcKeys recs)).erase b) =
              dbS.filter fun x => decide (x ∉ srcKeys recs ++ [b]) := by
            rw [(hnd.filter _).erase_eq_filter, List.filter_filter]
            refine List.filter_congr ?_
            intro x _
            by_cases h1 : x ∈ srcKeys recs <;> by_cases h2 : x = b <;>
              simp [h1, h2, List.mem_append]
          rw [hcsv, hmiss, herase]
          simp [List.length_append]
        · rw [if_neg (fun hc => hbd (hdbmem.mp hc))]
          have hcsv : ((srcKeys recs ++ [b]).filter fun x => decide (x ∈ dbS)) =
              (srcKeys recs).filter fun x => decide (x ∈ dbS) := by
            rw [List.filter_append]
            simp [hbd]
          have hmiss : ((srcKeys recs ++ [b]).filter fun x => decide (x ∉ dbS)) =
              ((srcKeys recs).filter fun x => decide (x ∉ dbS)) ++ [b] := by
            rw [List.filter_append]
            simp [hbd]
          have hsame : (dbS.filter fun x => decide (x ∉ srcKeys recs)) =
              dbS.filter fun x => decide (x ∉ srcKeys recs ++ [b]) := by
            refine List.filter_congr ?_
            intro x hx
            have hxb : x ≠ b := fun hc => hbd (hc ▸ hx)
            by_cases h1 : x ∈ srcKeys recs <;> simp [h1, hxb, List.mem_append]
          rw [hcsv, hmiss, hsame]

/-! ## Shared run-level helpers -/

theorem runLoop_db (l : List OrderAgg) : ∀ (db : DB) (s : Summary),
    (runLoop db s l).1 = dbAfter db l := by
  induction l with
  | nil => intro db s; rfl
  | cons o l ih =>
    intro db s
    rw [runLoop_cons, dbAfter_cons, ih, runStep_fst db s o]

theorem runOutcomes_length (l : List OrderAgg) : ∀ db : DB,
    (runOutcomes db l).length = l.length := by
  induction l with
  | nil => intro db; rfl
  | cons o l ih =>
    intro db
    rw [runOutcomes_cons, List.length_cons, List.length_cons, ih]

theorem row_dropped_no_effect (pre post : List Row) (r : Row) (db : DB)
    (h : keepRow r = false) :
    parseFileAndGroupOrders (pre ++ r :: post) = parseFileAndGroupOrders (pre ++ post) ∧
    processOrderFile db (pre ++ r :: post) = processOrderFile db (pre ++ post) := by
  have h1 : parseFileAndGroupOrders (pre ++ r :: post) =
      parseFileAndGroupOrders (pre ++ post) := by
    rw [parseFileAndGroupOrders, parseFileAndGroupOrders, List.foldl_append, List.foldl_append,
      List.foldl_cons, addRow_drop _ _ h]
  exact ⟨h1, by simp only [processOrderFile, h1]⟩

theorem parse_all_dropped (rows : List Row) (h : ∀ row ∈ rows, keepRow row = false) :
    parseFileAndGroupOrders rows = [] := by
  induction rows using List.reverseRecOn with
  | nil => rfl
  | append_singleton l r ih =>
    rw [parse_concat, addRow_drop _ _ (h r (List.mem_append_right _ (List.mem_singleton_self r))),
      ih fun row hrow => h row (List.mem_append_left _ hrow)]

/-! ## Claim theorems -/

/-- Claim C4: `normalizePhone` removes every non-digit character and drops a
leading `"91"` exactly when more than 10 digits remain; `"+91 98765-43210"`
and `"9876543210"` both normalize to `"9876543210"`, and an empty or absent
input normalizes to the empty string. -/
theorem normalizePhone_correct :
    (∀ p : Option String, normalizePhone p = normalizePhoneSpec p) ∧
    normalizePhone (some "+91 98765-43210") = "9876543210" ∧
    normalizePhone (some "9876543210") = "9876543210" ∧
    normalizePhone none = "" ∧ normalizePhone (some "") = "" := by
  refine ⟨?_, by decide, by decide, rfl, rfl⟩
  intro p
  cases p with
  | none => rfl
  | some s =>
    by_cases hs : s = ""
    · subst hs
      rfl
    · simp only [normalizePhone, normalizePhoneSpec, Option.getD]
      rw [if_neg hs]
      exact if_congr and_comm rfl rfl

/-- Claim C7: a row lacking a bill number or total amount is dropped with a
warning only: it contributes to no order aggregate, no line item, and no
job counter — the whole run result is unchanged. -/
theorem malformed_row_no_effect (pre post : List Row) (r : Row) (db : DB)
    (h : keepRow r = false) :
    parseFileAndGroupOrders (pre ++ r :: post) = parseFileAndGroupOrders (pre ++ post) ∧
    processOrderFile db (pre ++ r :: post) = processOrderFile db (pre ++ post) :=
  row_dropped_no_effect pre post r db h

/-- Witness for C7 at a concrete dropped row. -/
theorem malformed_row_no_effect_witness :
    parseFileAndGroupOrders ([] ++ rowBDropped :: [rowA]) =
      parseFileAndGroupOrders ([] ++ [rowA]) ∧
    processOrderFile dbEmpty ([] ++ rowBDropped :: [rowA]) =
      processOrderFile dbEmpty ([] ++ [rowA]) :=
  malformed_row_no_effect [] [rowA] rowBDropped dbEmpty (by decide)

/-- Claim C10: a total-amount cell that is present but falsy (numeric `0` or
the empty string) is dropped exactly like an absent one, because the guard
tests truthiness; an order whose every row carries a zero total is never
ingested. -/
theorem zero_total_row_dropped (r : Row) (db : DB) (rows : List Row)
    (h : r.order_total_amount = .num 0 ∨ r.order_total_amount = .str "" ∨
      r.order_total_amount = .undef)
    (hall : ∀ row ∈ rows, row.order_total_amount = .num 0) :
    keepRow r = false ∧
    (∀ pre post : List Row,
      parseFileAndGroupOrders (pre ++ r :: post) = parseFileAndGroupOrders (pre ++ post)) ∧
    parseFileAndGroupOrders rows = [] ∧
    processOrderFile db rows = (db, { totalProcessed := 0 }) := by
  have hk : keepRow r = false := by
    rcases h with h | h | h <;> simp [keepRow, h, JVal.truthy]
  have hp : parseFileAndGroupOrders rows = [] :=
    parse_all_dropped rows fun row hrow => by
      simp [keepRow, hall row hrow, JVal.truthy]
  refine ⟨hk, ?_, hp, ?_⟩
  · intro pre post
    exact (row_dropped_no_effect pre post r db hk).1
  · simp only [processOrderFile, hp]
    rfl

/-- Witness for C10 at a concrete zero-total row. -/
theorem zero_total_row_dropped_witness :
    keepRow rowZeroTotal = false ∧ parseFileAndGroupOrders [rowZeroTotal] = [] :=
  ⟨(zero_total_row_dropped rowZeroTotal dbEmpty [rowZeroTotal] (by decide) (by decide)).1,
   (zero_total_row_dropped rowZeroTotal dbEmpty [rowZeroTotal] (by decide)
     (by decide)).2.2.1⟩

/-- Claim C6 (amended): all surviving rows sharing one bill number produce
exactly one aggregate whose item list collects those rows' line items in
encounter order and whose order-level data is the first such row; the
output is ordered by the first appearance of each bill number among the
surviving rows. -/
theorem grouping_characterization (rows : List Row) :
    (parseFileAndGroupOrders rows).map billOf =
      firstKeys ((survRows rows).map (·.bill_number)) ∧
    ((parseFileAndGroupOrders rows).map billOf).Nodup ∧
    ∀ a ∈ parseFileAndGroupOrders rows,
      a.items = (rowsFor rows (billOf a)).map mkItem ∧
      (rowsFor rows (billOf a)).head? = some a.data := by
  obtain ⟨h1, h2⟩ := group_char rows
  exact ⟨h1, by rw [h1]; exact firstKeys_nodup _, h2⟩

/-- Witness for C6 (amended) at a concrete input. -/
theorem grouping_characterization_witness :
    (parseFileAndGroupOrders rowsOrd).map billOf =
      firstKeys ((survRows rowsOrd).map (·.bill_number)) ∧
    ({ data := rowA, items := [mkItem rowA] } : OrderAgg).items =
      (rowsFor rowsOrd (billOf ({ data := rowA, items := [mkItem rowA] } : OrderAgg))).map
        mkItem :=
  ⟨(grouping_characterization rowsOrd).1,
   ((grouping_characterization rowsOrd).2.2 _ (by decide)).1⟩

/-- Claim C6 counterexample: with input rows for bills B (dropped), A, B the
output is ordered `[A, B]` although B's first appearance in the input
precedes A's, so the output is not ordered by first appearance in the
input. -/
theorem grouping_order_counterexample :
    (parseFileAndGroupOrders rowsOrd).map billOf = [JVal.str "A", JVal.str "B"] ∧
    firstKeys (rowsOrd.map (·.bill_number)) = [JVal.str "B", JVal.str "A"] ∧
    ¬ ((parseFileAndGroupOrders rowsOrd).map billOf =
        (firstKeys (rowsOrd.map (·.bill_number))).filter fun b =>
          decide (b ∈ (parseFileAndGroupOrders rowsOrd).map billOf)) :=
  ⟨by decide, by decide, by decide⟩

/-- Claim C3: customer resolution searches by normalized phone first (only
when non-empty) and consults the e-mail only when the phone lookup found
nothing; when the phone matches one stored profile while the e-mail matches
a different one, the order is merged into the phone-matched profile and the
e-mail-matched profile is left untouched. -/
theorem customer_phone_priority (db : DB) (orderData : Row) (c1 c2 : Customer)
    (hp : normalizePhone orderData.phone ≠ "")
    (hfind : db.customers.find?
      (fun c => decide (normalizePhone orderData.phone ∈ c.all_phones)) = some c1)
    (hc2 : c2 ∈ db.customers) (_hc2email : c2.email = emailOf orderData)
    (hne : c2.id ≠ c1.id) :
    findOrCreateCustomer orderData db =
      .ok (mergeCustomer orderData (normalizePhone orderData.phone) (emailOf orderData) c1,
        { db with customers := db.customers.map fun x =>
            if x.id = c1.id then
              mergeCustomer orderData (normalizePhone orderData.phone) (emailOf orderData) c1
            else x }) ∧
    (∀ c ∈ db.customers, c.id ≠ c1.id → c ∈ db.customers.map fun x =>
        if x.id = c1.id then
          mergeCustomer orderData (normalizePhone orderData.phone) (emailOf orderData) c1
        else x) ∧
    c2 ∈ db.customers.map fun x =>
      if x.id = c1.id then
        mergeCustomer orderData (normalizePhone orderData.phone) (emailOf orderData) c1
      else x := by
  have huntouched : ∀ c ∈ db.customers, c.id ≠ c1.id → c ∈ db.customers.map fun x =>
      if x.id = c1.id then
        mergeCustomer orderData (normalizePhone orderData.phone) (emailOf orderData) c1
      else x :=
    fun c hc hcne => List.mem_map.mpr ⟨c, hc, by rw [if_neg hcne]⟩
  refine ⟨?_, huntouched, huntouched c2 hc2 hne⟩
  simp [findOrCreateCustomer, hp, hfind]

/-- Witness for C3 at a concrete two-profile store. -/
theorem customer_phone_priority_witness :
    findOrCreateCustomer rowBothContacts dbTwoCustomers =
      .ok (mergedPhonePriority, { dbTwoCustomers with customers := dbTwoCustomersMerged }) ∧
    custByMail ∈ dbTwoCustomersMerged := by
  have h := customer_phone_priority dbTwoCustomers rowBothContacts custByPhone custByMail
    (by decide) (by decide) (by decide) (by decide) (by decide)
  exact ⟨h.1, h.2.2⟩

/-- Claim C5: a merge into an existing profile never changes the primary
e-mail, only appends to the contact lists (the normalized phone resp.
trimmed e-mail is appended exactly when non-empty and absent), and every
element already stored remains; at store level every profile survives a
successful resolution with the same primary e-mail and grown lists. -/
theorem merge_lists_grow_only :
    (∀ (orderData : Row) (phone email : String) (c : Customer),
      (mergeCustomer orderData phone email c).email = c.email ∧
      (mergeCustomer orderData phone email c).all_phones =
        c.all_phones ++ (if phone ≠ "" ∧ phone ∉ c.all_phones then [phone] else []) ∧
      (mergeCustomer orderData phone email c).all_emails =
        c.all_emails ++ (if email ≠ "" ∧ email ∉ c.all_emails then [email] else []) ∧
      (∀ x ∈ c.all_phones, x ∈ (mergeCustomer orderData phone email c).all_phones) ∧
      (∀ x ∈ c.all_emails, x ∈ (mergeCustomer orderData phone email c).all_emails)) ∧
    (∀ (orderData : Row) (db : DB) (res : Customer × DB),
      custIdsOk db → findOrCreateCustomer orderData db = .ok res → custLe db res.2) := by
  constructor
  · intro orderData phone email c
    refine ⟨mergeCustomer_email _ _ _ _, mergeCustomer_phones _ _ _ _,
      mergeCustomer_emails _ _ _ _, ?_, ?_⟩
    · intro x hx
      rw [mergeCustomer_phones]
      exact List.mem_append_left _ hx
    · intro x hx
      rw [mergeCustomer_emails]
      exact List.mem_append_left _ hx
  · intro orderData db res hids h
    obtain ⟨c, db1⟩ := res
    exact (fOCC_custLe orderData db c db1 hids h).1

/-- Witness for C5 at concrete inputs. -/
theorem merge_lists_grow_only_witness :
    "555" ∈ (mergeCustomer rowBothContacts "222" "c@z" custByPhone).all_phones ∧
    custLe dbTwoCustomers
      ((findOrCreateCustomer rowBothContacts dbTwoCustomers).toOption.getD
        (({} : Customer), dbEmpty)).2 :=
  ⟨(merge_lists_grow_only.1 rowBothContacts "222" "c@z" custByPhone).2.2.2.1 "555" (by decide),
   merge_lists_grow_only.2 rowBothContacts dbTwoCustomers _ (by decide) (by rfl)⟩

/-- Claim C2: any exception inside an order's transaction rolls that order's
whole transaction back (no order row, no item rows, no customer write
survive), increments only the failed-insert counter, and the loop continues
with the remaining aggregates. -/
theorem order_failure_rolls_back (db : DB) (o : OrderAgg) (s : Summary)
    (rest : List OrderAgg) (h : (processOrder db o).1 = .failed) :
    (processOrder db o).2 = db ∧
    runStep (db, s) o = (db, { s with failedInserts := s.failedInserts + 1 }) ∧
    runLoop db s (o :: rest) =
      runLoop db { s with failedInserts := s.failedInserts + 1 } rest := by
  have hdb : (processOrder db o).2 = db :=
    processOrder_not_success_db db o (by simp [h])
  have hpair : processOrder db o = (.failed, db) := Prod.ext h hdb
  have hstep : runStep (db, s) o = (db, { s with failedInserts := s.failedInserts + 1 }) := by
    simp [runStep, hpair]
  refine ⟨hdb, hstep, ?_⟩
  rw [runLoop_cons, hstep]

/-- Witness for C2 at a concrete aggregate without an identity key. -/
theorem order_failure_rolls_back_witness :
    (processOrder dbEmpty aggNoIdentity).2 = dbEmpty ∧
    runStep (dbEmpty, {}) aggNoIdentity =
      (dbEmpty, { ({} : Summary) with failedInserts := ({} : Summary).failedInserts + 1 }) ∧
    runLoop dbEmpty {} [aggNoIdentity] =
      runLoop dbEmpty { ({} : Summary) with
        failedInserts := ({} : Summary).failedInserts + 1 } [] :=
  order_failure_rolls_back dbEmpty aggNoIdentity {} [] (by decide)

/-- Claim C8: every processed aggregate increments exactly one outcome
counter and leaves the total untouched, so after a run the total-grouped
count equals successes + skips + failures. -/
theorem counters_partition :
    (∀ (db : DB) (rows : List Row),
      (processOrderFile db rows).2.totalProcessed = (parseFileAndGroupOrders rows).length ∧
      (processOrderFile db rows).2.totalProcessed =
        (processOrderFile db rows).2.successfulInserts +
          (processOrderFile db rows).2.skippedDuplicates +
          (processOrderFile db rows).2.failedInserts) ∧
    (∀ (st : DB × Summary) (o : OrderAgg),
      ((runStep st o).2.successfulInserts + (runStep st o).2.skippedDuplicates +
          (runStep st o).2.failedInserts =
        st.2.successfulInserts + st.2.skippedDuplicates + st.2.failedInserts + 1) ∧
      (runStep st o).2.totalProcessed = st.2.totalProcessed) := by
  constructor
  · intro db rows
    obtain ⟨ht, hs, hk, hf⟩ := runLoop_counts (parseFileAndGroupOrders rows) db
      { totalProcessed := (parseFileAndGroupOrders rows).length }
    have hu : processOrderFile db rows = runLoop db
        { totalProcessed := (parseFileAndGroupOrders rows).length }
        (parseFileAndGroupOrders rows) := rfl
    have hsum := countOf_sum (runOutcomes db (parseFileAndGroupOrders rows))
    have hlen := runOutcomes_length (parseFileAndGroupOrders rows) db
    have hz0 : ({ totalProcessed := (parseFileAndGroupOrders rows).length } :
        Summary).totalProcessed = (parseFileAndGroupOrders rows).length := rfl
    have hz1 : ({ totalProcessed := (parseFileAndGroupOrders rows).length } :
        Summary).successfulInserts = 0 := rfl
    have hz2 : ({ totalProcessed := (parseFileAndGroupOrders rows).length } :
        Summary).skippedDuplicates = 0 := rfl
    have hz3 : ({ totalProcessed := (parseFileAndGroupOrders rows).length } :
        Summary).failedInserts = 0 := rfl
    rw [hu]
    constructor
    · rw [ht, hz0]
    · rw [ht, hs, hk, hf]
      omega
  · intro st o
    obtain ⟨db0, s0⟩ := st
    rcases hp : processOrder db0 o with ⟨out, db'⟩
    cases out <;> simp [runStep, hp] <;> omega

/-- Claim C9: the delta auditor classifies only the first occurrence of each
distinct trimmed non-empty source bill number, counts it as matched exactly
when it equals a trimmed persisted bill number, lists the unmatched source
bills as missing and the never-matched persisted bills as extra; on
persisted A, B, C and source B, C, D it reports 2 matched, missing D and
extra A. -/
theorem delta_audit_correct :
    (∀ (dbRaw : List String) (records : List (Option String)),
      performDeltaAnalysis dbRaw records =
        (((srcKeys records).filter fun b =>
            decide (b ∈ firstKeys (dbRaw.map jsTrim))).length,
         (srcKeys records).filter fun b => decide (b ∉ firstKeys (dbRaw.map jsTrim)),
         (firstKeys (dbRaw.map jsTrim)).filter fun b => decide (b ∉ srcKeys records))) ∧
    performDeltaAnalysis ["A", "B", "C"] [some "B", some "C", some "D"] =
      (2, ["D"], ["A"]) := by
  constructor
  · intro dbRaw records
    simp only [performDeltaAnalysis]
    rw [delta_invariant (firstKeys (dbRaw.map jsTrim)) (firstKeys_nodup _) records]
  · decide

/-- Claim C1 counterexample: re-running ingestion of `rowsTwice` yields a
second run with one successful insert (the aggregate that failed in the
first run becomes resolvable after the other aggregate's customer merge),
and a duplicate aggregate whose customer resolution throws is counted as a
failed insert, not as a skipped duplicate. -/
theorem ingest_twice_counterexample :
    (processOrderFile (processOrderFile dbEmpty rowsTwice).1 rowsTwice).2.successfulInserts
      = 1 ∧
    (processOrderFile dbEmpty rowsTwice).2 =
      { totalProcessed := 2, successfulInserts := 1, failedInserts := 1
        skippedDuplicates := 0 } ∧
    processOrder dbWithB9 aggB9NoIdentity = (.failed, dbWithB9) :=
  ⟨by decide, by decide, by decide⟩

/-- Claim C1 (amended): a duplicate whose customer resolution succeeds rolls
back the whole per-order transaction (state unchanged, so the customer
merge is undone and nothing is inserted) and increments the skipped counter
rather than the failed one; starting from a store with no orders and
well-formed customer ids, a second identical run's skipped-duplicate count
equals the first run's successful-insert count, its successful inserts are
at most the first run's failed inserts, and are zero when the first run had
no failures. -/
theorem duplicate_skip_and_idempotence :
    (∀ (db : DB) (o : OrderAgg) (s : Summary),
      resOk db o.data → billOf o ∈ orderBills db →
      processOrder db o = (.skipped, db) ∧
      runStep (db, s) o = (db, { s with skippedDuplicates := s.skippedDuplicates + 1 })) ∧
    (∀ (db : DB) (rows : List Row), custIdsOk db → db.orders = [] →
      (processOrderFile (processOrderFile db rows).1 rows).2.skippedDuplicates =
        (processOrderFile db rows).2.successfulInserts ∧
      (processOrderFile (processOrderFile db rows).1 rows).2.successfulInserts ≤
        (processOrderFile db rows).2.failedInserts ∧
      ((processOrderFile db rows).2.failedInserts = 0 →
        (processOrderFile (processOrderFile db rows).1 rows).2.successfulInserts = 0)) := by
  constructor
  · intro db o s h1 h2
    have hdup := processOrder_dup db o h1 h2
    exact ⟨hdup, by simp [runStep, hdup]⟩
  · intro db rows hids h0
    have hnd : ((parseFileAndGroupOrders rows).map billOf).Nodup := by
      rw [(group_char rows).1]
      exact firstKeys_nodup _
    have hob : orderBills db = [] := by simp [orderBills, h0]
    have hA0 : ∀ o ∈ parseFileAndGroupOrders rows, billOf o ∉ orderBills db := by
      intro o _
      simp [hob]
    have hfst : (processOrderFile db rows).1 = dbAfter db (parseFileAndGroupOrders rows) :=
      runLoop_db _ _ _
    have hidsB : custIdsOk (processOrderFile db rows).1 := by
      rw [hfst]
      exact (custLe_dbAfter _ db hids).2
    have hle : custLe (dbAfter db (parseFileAndGroupOrders rows))
        (processOrderFile db rows).1 := by
      rw [hfst]
      exact custLe_refl _
    have hB1 : ∀ o ∈ parseFileAndGroupOrders rows,
        (billOf o ∈ orderBills (processOrderFile db rows).1 ↔
          billOf o ∈ successBills db (parseFileAndGroupOrders rows)) := by
      intro o _
      rw [hfst, orderBills_dbAfter, hob, List.nil_append]
    obtain ⟨he, hle2⟩ := two_run (parseFileAndGroupOrders rows) db
      (processOrderFile db rows).1 hids hidsB hnd hA0 hle hB1
    obtain ⟨-, hs1, hk1, hf1⟩ := runLoop_counts (parseFileAndGroupOrders rows) db
      { totalProcessed := (parseFileAndGroupOrders rows).length }
    obtain ⟨-, hs2, hk2, hf2⟩ := runLoop_counts (parseFileAndGroupOrders rows)
      (processOrderFile db rows).1
      { totalProcessed := (parseFileAndGroupOrders rows).length }
    have hu1 : processOrderFile db rows = runLoop db
        { totalProcessed := (parseFileAndGroupOrders rows).length }
        (parseFileAndGroupOrders rows) := rfl
    have hu2 : processOrderFile (processOrderFile db rows).1 rows = runLoop
        (processOrderFile db rows).1
        { totalProcessed := (parseFileAndGroupOrders rows).length }
        (parseFileAndGroupOrders rows) := rfl
    have hz1 : ({ totalProcessed := (parseFileAndGroupOrders rows).length } :
        Summary).successfulInserts = 0 := rfl
    have hz2 : ({ totalProcessed := (parseFileAndGroupOrders rows).length } :
        Summary).skippedDuplicates = 0 := rfl
    have hz3 : ({ totalProcessed := (parseFileAndGroupOrders rows).length } :
        Summary).failedInserts = 0 := rfl
    rw [hu1] at hs2 hk2 he hle2
    rw [hu2, hu1, hs2, hk2, hs1, hf1, hz1, hz2, hz3]
    omega

/-- Witness for C1 (amended) at concrete inputs. -/
theorem duplicate_skip_and_idempotence_witness :
    processOrder dbWithB9 aggB9 = (.skipped, dbWithB9) ∧
    (processOrderFile (processOrderFile dbEmpty rowsTwice).1 rowsTwice).2.skippedDuplicates =
      (processOrderFile dbEmpty rowsTwice).2.successfulInserts :=
  ⟨(duplicate_skip_and_idempotence.1 dbWithB9 aggB9 {} (by decide) (by decide)).1,
   (duplicate_skip_and_idempotence.2 dbEmpty rowsTwice (by decide) rfl).1⟩
